import Mathlib

/-!
Verification of the phone-mining and cascading-search core of the bot.

The definitions below are shallow embeddings of the Python functions in
src/name_dob_search.py, src/file_processing.py and src/api_client.py.
Strings are modelled as Lean strings (lists of characters); Python float
scores are modelled as exact rationals; upstream API responses consumed by
the orchestrator are modelled as records carrying exactly the features the
orchestrator reads from them (marker presence, regex captures, mined
phones, mined emails, mined VK ids).
-/

namespace Bot

/-! ### Basic Python string primitives -/

/-- Python str.isdigit restricted to ASCII digits, which is the alphabet of
every phone value handled by the code. -/
def pyIsDigit (c : Char) : Bool := c.isDigit

/-- The six whitespace characters recognised by Python str.strip and
str.split with no arguments. -/
def pyIsSpace (c : Char) : Bool :=
  c = ' ' || c = '\t' || c = '\n' || c = '\x0d' || c = '\x0b' || c = '\x0c'

/-- Python str.lower on the character ranges that actually occur in the
data handled by this program: ASCII letters and the Russian alphabet. -/
def pyToLower (c : Char) : Char :=
  if 'A' ≤ c ∧ c ≤ 'Z' then Char.ofNat (c.toNat + 32)
  else if 'А' ≤ c ∧ c ≤ 'Я' then Char.ofNat (c.toNat + 32)
  else if c = 'Ё' then 'ё'
  else c

/-- Python str.lower lifted to strings. -/
def pyLower (s : String) : String := (s.toList.map pyToLower).asString

/-- Python str.strip with no arguments. -/
def pyStrip (s : String) : String :=
  (((s.toList.dropWhile pyIsSpace).reverse.dropWhile pyIsSpace).reverse).asString

/-- The digit reduction used everywhere in the code:
characters of the string that are digits, joined. -/
def digitsOf (s : String) : String := (s.toList.filter pyIsDigit).asString

/-- Boolean list-prefix test (Python startswith on the character level). -/
def prefixOfB : List Char → List Char → Bool
  | [], _ => true
  | _ :: _, [] => false
  | a :: as, b :: bs => a == b && prefixOfB as bs

/-- Python str.startswith. -/
def startsWithB (s p : String) : Bool := prefixOfB p.toList s.toList

/-- Boolean substring test, the semantics of the Python operator in:
the empty needle is contained in everything. -/
def infixOfB (needle : List Char) : List Char → Bool
  | [] => prefixOfB needle []
  | c :: rest => prefixOfB needle (c :: rest) || infixOfB needle rest

/-- Python substring containment: needle in hay. -/
def strContainsB (hay needle : String) : Bool := infixOfB needle.toList hay.toList

/-- Python string slicing s[n:]. -/
def strDrop (s : String) (n : Nat) : String := (s.toList.drop n).asString

/-- Python string slicing s[:n]. -/
def strTake (s : String) (n : Nat) : String := (s.toList.take n).asString

/-- Helper of pySplitWs: the first argument is the remaining input, the
second the current word accumulated in reverse. -/
def pySplitWsAux : List Char → List Char → List String
  | [], acc => if acc.isEmpty then [] else [acc.reverse.asString]
  | c :: rest, acc =>
    if pyIsSpace c then
      if acc.isEmpty then pySplitWsAux rest []
      else acc.reverse.asString :: pySplitWsAux rest []
    else pySplitWsAux rest (c :: acc)

/-- Python str.split with no arguments: split on whitespace runs,
dropping empty pieces. -/
def pySplitWs (s : String) : List String := pySplitWsAux s.toList []

/-- Python str.split with a one-character separator: empty pieces are kept. -/
def splitOnCharAux (sep : Char) : List Char → List Char → List String
  | [], acc => [acc.reverse.asString]
  | c :: rest, acc =>
    if c = sep then acc.reverse.asString :: splitOnCharAux sep rest []
    else splitOnCharAux sep rest (c :: acc)

/-- Python s.split(sep) for a one-character separator. -/
def splitOnChar (s : String) (sep : Char) : List String := splitOnCharAux sep s.toList []

/-- Python str.zfill n. -/
def pyZfill (s : String) (n : Nat) : String :=
  if s.length < n then (List.replicate (n - s.length) '0').asString ++ s else s

/-- The phone-shape invariant claimed by the specification: the regular
expression matching exactly eleven digits with a leading seven. -/
def matchesPhone7 (s : String) : Bool :=
  s.length = 11 && startsWithB s "7" && s.toList.all pyIsDigit

/-! ### normalize_phone, is_valid_phone, detect_phone_type
(src/name_dob_search.py lines 713-794) -/

/-- Embedding of normalize_phone: strip non-digits, require at least ten
digits, replace a leading eight of an eleven-digit number with seven, and
prefix ten-digit numbers that do not start with seven. -/
def normalize_phone (phone : String) : Option String :=
  let digits := digitsOf phone
  if digits.length < 10 then none
  else
    let d1 := if startsWithB digits "8" && digits.length = 11
              then "7" ++ strDrop digits 1 else digits
    let d2 := if d1.length = 10 && !(startsWithB d1 "7")
              then "7" ++ d1 else d1
    some d2

/-- Embedding of is_valid_phone: nonempty, at least ten characters, all
digits, and an eleven-character value must start with seven or eight. -/
def is_valid_phone (phone : String) : Bool :=
  if phone = "" then false
  else if phone.length < 10 then false
  else if !(phone.toList.all pyIsDigit) then false
  else if phone.length = 11 && !(startsWithB phone "7" || startsWithB phone "8")
  then false
  else true

/-- Embedding of detect_phone_type. -/
def detect_phone_type (phone : String) : String :=
  if phone = "" || phone.length < 10 then "unknown"
  else if startsWithB phone "79" || startsWithB phone "89" then "mobile"
  else if startsWithB phone "7495" || startsWithB phone "7499" || startsWithB phone "7812"
  then "landline"
  else if startsWithB phone "7800" || startsWithB phone "8800" then "tollfree"
  else if startsWithB phone "7" then "mobile"
  else "unknown"


theorem digitsOf_toList (s : String) : (digitsOf s).toList = s.toList.filter pyIsDigit := rfl

theorem digitsOf_all_digit (s : String) : (digitsOf s).toList.all pyIsDigit = true := by
  rw [digitsOf_toList, List.all_eq_true]
  intro c hc
  exact (List.mem_filter.mp hc).2

theorem toList_append (a b : String) : (a ++ b).toList = a.toList ++ b.toList :=
  String.data_append a b

theorem length_eq_toList (s : String) : s.length = s.toList.length := rfl

theorem startsWithB_append7 (t : String) : startsWithB ("7" ++ t) "7" = true := by
  simp [startsWithB, toList_append, prefixOfB]

theorem strDrop_toList (s : String) (n : Nat) : (strDrop s n).toList = s.toList.drop n := rfl

theorem length_strDrop (s : String) (n : Nat) : (strDrop s n).length = s.length - n := by
  rw [length_eq_toList, strDrop_toList, List.length_drop, ← length_eq_toList]

theorem prefix7_8_false : ∀ l : List Char,
    prefixOfB ['7'] l = true → prefixOfB ['8'] l = true → False := by
  intro l
  cases l with
  | nil => simp [prefixOfB]
  | cons x xs =>
    simp [prefixOfB]
    intro h7 h8
    subst h7
    exact absurd h8 (by decide)

theorem not_start7_and_8 (d : String) :
    startsWithB d "7" = true → startsWithB d "8" = true → False := by
  intro h7 h8
  exact prefix7_8_false d.toList h7 h8

theorem matchesPhone7_eq (s : String) (hall : s.toList.all pyIsDigit = true) :
    matchesPhone7 s = (decide (s.length = 11) && startsWithB s "7") := by
  unfold matchesPhone7
  rw [hall]
  simp

theorem all_digit_append7 (t : String) (ht : t.toList.all pyIsDigit = true) :
    ("7" ++ t).toList.all pyIsDigit = true := by
  rw [toList_append, List.all_append, ht]
  simp only [Bool.and_true]
  decide

theorem all_digit_strDrop (t : String) (n : Nat) (ht : t.toList.all pyIsDigit = true) :
    (strDrop t n).toList.all pyIsDigit = true := by
  rw [strDrop_toList, List.all_eq_true]
  rw [List.all_eq_true] at ht
  intro c hc
  exact ht c (List.mem_of_mem_drop hc)

theorem length7_append (t : String) : ("7" ++ t).length = t.length + 1 := by
  rw [String.length_append]
  have h1 : ("7" : String).length = 1 := rfl
  omega

/-- Claim C3 amended: normalize_phone returns none exactly when the input
has fewer than ten digits; otherwise it returns the transformed digit
string, and that string matches the eleven-digit leading-seven shape
exactly when the digit form either has ten digits not starting with seven
or has eleven digits starting with seven or eight. -/
theorem normalize_phone_characterization :
    (∀ s : String, normalize_phone s = none ↔ (digitsOf s).length < 10) ∧
    (∀ s r : String, normalize_phone s = some r →
      (matchesPhone7 r = true ↔
        ((digitsOf s).length = 10 ∧ startsWithB (digitsOf s) "7" = false) ∨
        ((digitsOf s).length = 11 ∧
          (startsWithB (digitsOf s) "7" = true ∨ startsWithB (digitsOf s) "8" = true)))) := by
  constructor
  · intro s
    by_cases hl : (digitsOf s).length < 10 <;> simp [normalize_phone, hl]
  · intro s r h
    have hall : (digitsOf s).toList.all pyIsDigit = true := digitsOf_all_digit s
    set d := digitsOf s with hd
    by_cases hlen : d.length < 10
    · simp [normalize_phone, ← hd, hlen] at h
    · by_cases h8 : startsWithB d "8" = true ∧ d.length = 11
      · have hL : ("7" ++ strDrop d 1).length = 11 := by
          rw [length7_append, length_strDrop]
          omega
        have hr : r = "7" ++ strDrop d 1 := by
          simp [normalize_phone, ← hd, hlen, h8.1, h8.2, hL] at h
          exact h.symm
        have hdall : (strDrop d 1).toList.all pyIsDigit = true := all_digit_strDrop d 1 hall
        have hm : matchesPhone7 r = true := by
          rw [hr, matchesPhone7_eq _ (all_digit_append7 _ hdall)]
          simp [hL, startsWithB_append7]
        rw [hm]
        exact iff_of_true rfl (Or.inr ⟨h8.2, Or.inr h8.1⟩)
      · have hb1 : (startsWithB d "8" && decide (d.length = 11)) = false := by
          rcases Bool.eq_false_or_eq_true (startsWithB d "8") with hA | hA
          · have hB : d.length ≠ 11 := fun hc => h8 ⟨hA, hc⟩
            simp [hA, hB]
          · simp [hA]
        by_cases h10 : d.length = 10 ∧ startsWithB d "7" = false
        · have hr : r = "7" ++ d := by
            simp [normalize_phone, ← hd, hlen, hb1, h10.1, h10.2] at h
            exact h.symm
          have hm : matchesPhone7 r = true := by
            rw [hr, matchesPhone7_eq _ (all_digit_append7 _ hall)]
            have hL : ("7" ++ d).length = 11 := by rw [length7_append]; omega
            simp [hL, startsWithB_append7]
          rw [hm]
          exact iff_of_true rfl (Or.inl ⟨h10.1, h10.2⟩)
        · have hb2 : (decide (d.length = 10) && !startsWithB d "7") = false := by
            rcases Bool.eq_false_or_eq_true (startsWithB d "7") with hA | hA
            · simp [hA]
            · have hB : d.length ≠ 10 := fun hc => h10 ⟨hc, hA⟩
              simp [hA, hB]
          have hr : r = d := by
            simp [normalize_phone, ← hd, hlen, hb1, hb2] at h
            exact h.symm
          rw [hr, matchesPhone7_eq _ hall]
          constructor
          · intro hmt
            simp only [Bool.and_eq_true, decide_eq_true_eq] at hmt
            exact Or.inr ⟨hmt.1, Or.inl hmt.2⟩
          · intro hrhs
            rcases hrhs with ⟨hA, hB⟩ | ⟨hA, hB⟩
            · exact absurd ⟨hA, hB⟩ h10
            · rcases hB with hB | hB
              · simp [hA, hB]
              · exact absurd ⟨hB, hA⟩ h8


/-- Claim C3 counterexample: a ten-digit input already starting with seven is
returned as a ten-digit string, and a twelve-digit input is returned
unchanged; neither matches the eleven-digit leading-seven shape. -/
theorem normalize_phone_counterexample :
    normalize_phone "712-345-6789" = some "7123456789" ∧
    matchesPhone7 "7123456789" = false ∧
    normalize_phone "123456789012" = some "123456789012" ∧
    matchesPhone7 "123456789012" = false :=
  ⟨by decide, by decide, by decide, by decide⟩

/-- Witness for the amended C3 theorem at a concrete input. -/
theorem normalize_phone_characterization_witness :
    matchesPhone7 "79123456789" = true :=
  (normalize_phone_characterization.2 "8 (912) 345-67-89" "79123456789" (by decide)).mpr
    (Or.inr ⟨by decide, Or.inr (by decide)⟩)



/-! ### levenshtein_distance and calculate_similarity
(src/name_dob_search.py lines 382-435) -/

/-- One inner loop of the row-based dynamic program: the second argument is
the remaining previous row (from position j on), the third the value of the
current row at position j. -/
def levRowAux (c1 : Char) : List Char → List Nat → Nat → List Nat
  | [], _, _ => []
  | _ :: _, [], _ => []
  | _ :: _, [_], _ => []
  | c2 :: cs, diag :: up :: rest, cur =>
    let ins := up + 1
    let del := cur + 1
    let sub := diag + (if c1 = c2 then 0 else 1)
    let v := min ins (min del sub)
    v :: levRowAux c1 cs (up :: rest) v

/-- One outer loop step: from the previous row produce the current row. -/
def levStep (s2 : List Char) (prev : List Nat) (c1 : Char) : List Nat :=
  match prev with
  | [] => []
  | p0 :: rest => (p0 + 1) :: levRowAux c1 s2 (p0 :: rest) (p0 + 1)

/-- The last element of a row, with default zero (previous_row[-1]). -/
def lastD : List Nat → Nat
  | [] => 0
  | [x] => x
  | _ :: x :: xs => lastD (x :: xs)

/-- The row dynamic program of the source levenshtein_distance. -/
def levenshteinCore (s1 s2 : List Char) : Nat :=
  lastD (s1.foldl (levStep s2) (List.range (s2.length + 1)))

/-- Embedding of levenshtein_distance: swap so that the first string is the
longer one, answer the length when the second is empty, otherwise run the
row dynamic program.  The single self-call of the source is inlined. -/
def levenshtein_distance (s1 s2 : List Char) : Nat :=
  if s1.length < s2.length then
    if s1.length = 0 then s2.length else levenshteinCore s2 s1
  else
    if s2.length = 0 then s1.length else levenshteinCore s1 s2

/-- Reference recursive Levenshtein distance used to reason about the row
dynamic program; the nesting of the minima mirrors the source. -/
def levNaive : List Char → List Char → Nat
  | [], t => t.length
  | s, [] => s.length
  | c :: s, d :: t =>
    min (levNaive s (d :: t) + 1)
      (min (levNaive (c :: s) t + 1) (levNaive s t + (if c = d then 0 else 1)))
termination_by s t => s.length + t.length
decreasing_by all_goals simp <;> omega

/-- The model of a dynamic-programming row: entry j is the distance from the
processed prefix (reversed, first argument) to the reversal of w extended by
the first j characters of the third argument. -/
def rowSuffix (u w : List Char) : List Char → List Nat
  | [] => [levNaive u w]
  | d :: cs => levNaive u w :: rowSuffix u (d :: w) cs

theorem rowSuffix_shape (u w : List Char) (cs : List Char) :
    ∃ t, rowSuffix u w cs = levNaive u w :: t := by
  cases cs <;> exact ⟨_, rfl⟩

theorem levNaive_nil_left (t : List Char) : levNaive [] t = t.length := by
  rw [levNaive]

theorem levNaive_nil_right (u : List Char) : levNaive u [] = u.length := by
  cases u with
  | nil => rw [levNaive]
  | cons c s =>
    rw [levNaive]
    intro h
    exact absurd h (by simp)

theorem levNaive_cons_cons (c d : Char) (s t : List Char) :
    levNaive (c :: s) (d :: t)
      = min (levNaive s (d :: t) + 1)
          (min (levNaive (c :: s) t + 1) (levNaive s t + (if c = d then 0 else 1))) := by
  rw [levNaive]

theorem levRowAux_rowSuffix (c1 : Char) (u : List Char) :
    ∀ (cs w : List Char),
      rowSuffix (c1 :: u) w cs
        = levNaive (c1 :: u) w :: levRowAux c1 cs (rowSuffix u w cs) (levNaive (c1 :: u) w) := by
  intro cs
  induction cs with
  | nil => intro w; rfl
  | cons d cs ih =>
    intro w
    obtain ⟨t, ht⟩ := rowSuffix_shape u (d :: w) cs
    have hstep :
        levRowAux c1 (d :: cs) (rowSuffix u w (d :: cs)) (levNaive (c1 :: u) w)
          = levNaive (c1 :: u) (d :: w)
              :: levRowAux c1 cs (rowSuffix u (d :: w) cs) (levNaive (c1 :: u) (d :: w)) := by
      show levRowAux c1 (d :: cs) (levNaive u w :: rowSuffix u (d :: w) cs) (levNaive (c1 :: u) w) = _
      rw [ht]
      show (min (levNaive u (d :: w) + 1)
             (min (levNaive (c1 :: u) w + 1) (levNaive u w + (if c1 = d then 0 else 1))))
             :: levRowAux c1 cs (levNaive u (d :: w) :: t)
                  (min (levNaive u (d :: w) + 1)
                    (min (levNaive (c1 :: u) w + 1) (levNaive u w + (if c1 = d then 0 else 1)))) = _
      rw [← ht]
      have hv : min (levNaive u (d :: w) + 1)
          (min (levNaive (c1 :: u) w + 1) (levNaive u w + (if c1 = d then 0 else 1)))
          = levNaive (c1 :: u) (d :: w) := by
        rw [levNaive_cons_cons]
      rw [hv]
    rw [hstep]
    show rowSuffix (c1 :: u) w (d :: cs) = _
    rw [rowSuffix]
    rw [ih (d :: w)]


theorem levStep_rowSuffix (s2 : List Char) (u : List Char) (c1 : Char) :
    levStep s2 (rowSuffix u [] s2) c1 = rowSuffix (c1 :: u) [] s2 := by
  obtain ⟨t, ht⟩ := rowSuffix_shape u [] s2
  rw [levRowAux_rowSuffix c1 u s2 []]
  rw [ht]
  show (levNaive u [] + 1) :: levRowAux c1 s2 (levNaive u [] :: t) (levNaive u [] + 1) = _
  rw [← ht]
  have h1 : levNaive u [] + 1 = levNaive (c1 :: u) [] := by
    rw [levNaive_nil_right, levNaive_nil_right]
    rfl
  rw [h1]

theorem foldl_levStep (s2 : List Char) :
    ∀ (p u : List Char),
      List.foldl (levStep s2) (rowSuffix u [] s2) p = rowSuffix (p.reverse ++ u) [] s2 := by
  intro p
  induction p with
  | nil => intro u; rfl
  | cons c p ih =>
    intro u
    rw [List.foldl_cons, levStep_rowSuffix, ih (c :: u)]
    simp

theorem lastD_cons_of_ne_nil (x : Nat) (l : List Nat) (h : l ≠ []) :
    lastD (x :: l) = lastD l := by
  cases l with
  | nil => exact absurd rfl h
  | cons y ys => rfl

theorem rowSuffix_nil_left :
    ∀ (cs w : List Char), rowSuffix [] w cs = (List.range (cs.length + 1)).map (· + w.length) := by
  intro cs
  induction cs with
  | nil =>
    intro w
    rw [rowSuffix, levNaive_nil_left]
    rw [show List.range ([].length + 1) = [0] from rfl]
    simp
  | cons d cs ih =>
    intro w
    rw [rowSuffix, ih (d :: w), levNaive_nil_left]
    conv_rhs => rw [List.length_cons, List.range_succ_eq_map]
    rw [List.map_cons, List.map_map]
    congr 1
    · simp
    · apply List.map_congr_left
      intro a _
      simp [List.length_cons]
      omega

theorem range_eq_rowSuffix (s2 : List Char) :
    List.range (s2.length + 1) = rowSuffix [] [] s2 := by
  rw [rowSuffix_nil_left s2 []]
  simp

theorem lastD_rowSuffix :
    ∀ (cs u w : List Char), lastD (rowSuffix u w cs) = levNaive u (cs.reverse ++ w) := by
  intro cs
  induction cs with
  | nil => intro u w; rfl
  | cons d cs ih =>
    intro u w
    rw [rowSuffix]
    obtain ⟨t, ht⟩ := rowSuffix_shape u (d :: w) cs
    rw [lastD_cons_of_ne_nil _ _ (by rw [ht]; exact List.cons_ne_nil _ _)]
    rw [ih u (d :: w)]
    congr 1
    simp

theorem levenshteinCore_eq (s1 s2 : List Char) :
    levenshteinCore s1 s2 = levNaive s1.reverse s2.reverse := by
  unfold levenshteinCore
  rw [range_eq_rowSuffix, foldl_levStep s2 s1 [], List.append_nil]
  rw [lastD_rowSuffix]
  rw [List.append_nil]


theorem levNaive_self : ∀ s : List Char, levNaive s s = 0 := by
  intro s
  induction s with
  | nil => rw [levNaive_nil_left]; rfl
  | cons c s ih =>
    rw [levNaive_cons_cons, ih]
    simp

theorem levNaive_le_max : ∀ s t : List Char, levNaive s t ≤ max s.length t.length := by
  intro s
  induction s with
  | nil => intro t; rw [levNaive_nil_left]; simp
  | cons c s ih =>
    intro t
    induction t with
    | nil => rw [levNaive_nil_right]; simp
    | cons d t iht =>
      rw [levNaive_cons_cons]
      have h1 := ih (d :: t)
      have h2 := ih t
      have h3 : levNaive s t + (if c = d then 0 else 1) ≤ max s.length t.length + 1 := by
        split <;> omega
      simp only [List.length_cons] at *
      omega

theorem levNaive_comm : ∀ s t : List Char, levNaive s t = levNaive t s := by
  intro s
  induction s with
  | nil => intro t; rw [levNaive_nil_left, levNaive_nil_right]
  | cons c s ih =>
    intro t
    induction t with
    | nil => rw [levNaive_nil_left, levNaive_nil_right]
    | cons d t iht =>
      rw [levNaive_cons_cons, levNaive_cons_cons]
      rw [← iht, ← ih (d :: t), ← ih t]
      have hc : (if c = d then 0 else 1) = (if d = c then 0 else 1) := by
        by_cases h : c = d
        · simp [h]
        · have hdc : ¬ d = c := fun hdc => h hdc.symm
          simp [h, hdc]
      rw [hc]
      omega

theorem levenshtein_distance_eq (s1 s2 : List Char) :
    levenshtein_distance s1 s2 = levNaive s1.reverse s2.reverse := by
  unfold levenshtein_distance
  by_cases h : s1.length < s2.length
  · simp only [h, if_true]
    by_cases h0 : s1.length = 0
    · have hs1 : s1 = [] := List.length_eq_zero.mp h0
      subst hs1
      simp [h0, levNaive_nil_left]
    · simp only [h0, if_false]
      rw [levenshteinCore_eq, levNaive_comm]
  · simp only [h, if_false]
    by_cases h0 : s2.length = 0
    · have hs2 : s2 = [] := List.length_eq_zero.mp h0
      subst hs2
      simp [h0, levNaive_nil_right]
    · simp only [h0, if_false]
      rw [levenshteinCore_eq]

theorem levenshtein_distance_self (s : List Char) : levenshtein_distance s s = 0 := by
  rw [levenshtein_distance_eq, levNaive_self]

theorem levenshtein_distance_le_max (s t : List Char) :
    levenshtein_distance s t ≤ max s.length t.length := by
  rw [levenshtein_distance_eq]
  have := levNaive_le_max s.reverse t.reverse
  simpa using this


/-- Embedding of calculate_similarity: lower-case and strip both strings,
compute the Levenshtein distance, and normalise by the longer length;
zero when both stripped strings are empty. -/
def calculate_similarity (str1 str2 : String) : ℚ :=
  let s1 := pyStrip (pyLower str1)
  let s2 := pyStrip (pyLower str2)
  let distance := levenshtein_distance s1.toList s2.toList
  let max_len := max s1.length s2.length
  if max_len = 0 then 0 else 1 - (distance : ℚ) / (max_len : ℚ)

theorem length_ne_zero_of_ne_empty (s : String) (h : s ≠ "") : s.length ≠ 0 := by
  intro h0
  apply h
  have : s.toList = [] := List.length_eq_zero.mp h0
  exact String.toList_inj.mp this

/-- Claim C9 counterexample: the one-character whitespace string is
non-empty, yet its self-similarity is zero, not one, because both sides are
stripped to the empty string before comparison. -/
theorem calculate_similarity_counterexample :
    calculate_similarity " " " " = 0 ∧ (" " : String) ≠ "" ∧
    calculate_similarity " " " " ≠ 1 := by
  refine ⟨by decide, by decide, by decide⟩

/-- Claim C9 amended: the similarity always lies in the unit interval, it
equals one minus the distance divided by the longer length whenever the
stripped lower-cased strings are not both empty, self-similarity is one for
strings that remain non-empty after stripping, and the similarity of two
empty strings is zero. -/
theorem calculate_similarity_spec :
    (∀ a b : String, 0 ≤ calculate_similarity a b ∧ calculate_similarity a b ≤ 1) ∧
    (∀ a b : String,
      max (pyStrip (pyLower a)).length (pyStrip (pyLower b)).length ≠ 0 →
      calculate_similarity a b =
        1 - (levenshtein_distance (pyStrip (pyLower a)).toList (pyStrip (pyLower b)).toList : ℚ)
            / ((max (pyStrip (pyLower a)).length (pyStrip (pyLower b)).length : ℕ) : ℚ)) ∧
    (∀ a : String, pyStrip (pyLower a) ≠ "" → calculate_similarity a a = 1) ∧
    calculate_similarity "" "" = 0 := by
  have key : ∀ a b : String, 0 ≤ calculate_similarity a b ∧ calculate_similarity a b ≤ 1 := by
    intro a b
    unfold calculate_similarity
    set s1 := pyStrip (pyLower a)
    set s2 := pyStrip (pyLower b)
    set m := max s1.length s2.length with hmdef
    by_cases hm : m = 0
    · rw [if_pos hm]
      norm_num
    · rw [if_neg hm]
      have hle : levenshtein_distance s1.toList s2.toList ≤ m :=
        levenshtein_distance_le_max s1.toList s2.toList
      have hmpos : (0 : ℚ) < (m : ℚ) := by exact_mod_cast Nat.pos_of_ne_zero hm
      have h1 : ((levenshtein_distance s1.toList s2.toList : ℕ) : ℚ) / (m : ℚ) ≤ 1 := by
        rw [div_le_one hmpos]
        exact_mod_cast hle
      have h0 : (0 : ℚ) ≤ ((levenshtein_distance s1.toList s2.toList : ℕ) : ℚ) / (m : ℚ) := by
        positivity
      constructor <;> linarith
  refine ⟨key, ?_, ?_, ?_⟩
  · intro a b hm
    unfold calculate_similarity
    rw [if_neg hm]
  · intro a ha
    unfold calculate_similarity
    set s1 := pyStrip (pyLower a)
    set m := max s1.length s1.length with hmdef
    have hs : s1.length ≠ 0 := length_ne_zero_of_ne_empty _ ha
    have hm : m ≠ 0 := by
      rw [hmdef]
      simpa using hs
    rw [if_neg hm, levenshtein_distance_self]
    norm_num
  · decide

/-- Witness for the amended C9 theorem at a concrete input. -/
theorem calculate_similarity_spec_witness :
    calculate_similarity "Ivanov" "Ivanov" = 1 :=
  calculate_similarity_spec.2.2.1 "Ivanov" (by decide)


/-! ### convert_date_format and apply_strong_match_filter
(src/name_dob_search.py lines 223-379) -/

/-- Embedding of convert_date_format. -/
def convert_date_format (d : String) : String :=
  let pdot := splitOnChar d '.'
  if strContainsB d "." && pdot.length = 3 then
    match pdot with
    | [day, month, year] => year ++ "-" ++ pyZfill month 2 ++ "-" ++ pyZfill day 2
    | _ => d
  else
    let pdash := splitOnChar d '-'
    if strContainsB d "-" && pdash.length = 3 then
      if (pdash.headD "").length = 4 then d
      else
        match pdash with
        | [day, month, year] => year ++ "-" ++ pyZfill month 2 ++ "-" ++ pyZfill day 2
        | _ => d
    else d

/-- A record of an upstream database: field name to stringified value. -/
abbrev Rec := List (String × String)

/-- The data of one database inside a response: none when the Data key is
absent, otherwise the list of records. -/
abbrev DbData := Option (List Rec)

/-- A response as consumed by the filter: none when it is not a mapping
with a List key, otherwise the databases in order. -/
abbrev ApiListResp := Option (List (String × DbData))

/-- The query identity as produced by standardize_russian_name. -/
structure NameData where
  surname : String
  first_name : String
  patronymic : String
deriving DecidableEq, Repr

/-- A record annotated by the filter with its source database, the key of
the response it came from and its match score. -/
structure ScoredRec where
  fields : Rec
  sourceDb : String
  responseKey : String
  matchScore : ℚ
deriving DecidableEq, Repr

/-- Field-name predicate of the surname block, on lower-cased names. -/
def isSurnameField (f : String) : Bool :=
  strContainsB f "фамилия" || strContainsB f "surname" || strContainsB f "lastname"

/-- Field-name predicate of the full-name fallbacks. -/
def isFullNameField (f : String) : Bool :=
  strContainsB f "фио" || strContainsB f "fullname" || strContainsB f "full_name"

/-- Field-name predicate of the first-name block. -/
def isFirstNameField (f : String) : Bool :=
  strContainsB f "имя" || strContainsB f "firstname" || strContainsB f "first_name"

/-- Field-name predicate of the patronymic block. -/
def isPatronymicField (f : String) : Bool :=
  strContainsB f "отчество" || strContainsB f "patronymic" || strContainsB f "middlename"

/-- Field-name predicate of the birthdate block of the filter. -/
def isBirthFieldFilter (f : String) : Bool :=
  strContainsB f "birth" || strContainsB f "рождения" || strContainsB f "dob" ||
    strContainsB f "date"

/-- First field of the record whose lower-cased name satisfies the
predicate and whose value is truthy. -/
def firstMatchValue (pred : String → Bool) (rec : Rec) : Option String :=
  (rec.find? (fun kv => pred (pyLower kv.1) && kv.2 ≠ "")).map (fun kv => kv.2)

/-- Does some full-name field with a truthy value contain the component? -/
def fullNameContains (rec : Rec) (component : String) : Bool :=
  rec.any (fun kv =>
    isFullNameField (pyLower kv.1) && kv.2 ≠ "" && strContainsB (pyLower kv.2) component)

/-- The level of a birthdate match of one field value: exact, year and
month, or year only. -/
def birthLevelFilter (bd v : String) : Option ℚ :=
  if bd = v || convert_date_format v = bd then some 25
  else if strTake bd 7 = strTake v 7 || strTake bd 7 = strTake (convert_date_format v) 7
  then some 15
  else if strTake bd 4 = strTake v 4 || strTake bd 4 = strTake (convert_date_format v) 4
  then some 10
  else none

/-- Scan for the first birth-like truthy field whose value matches at some
level; fields that match the name predicate but no level are passed over. -/
def birthScoreFilter (bd : String) : Rec → ℚ
  | [] => 0
  | kv :: rest =>
    if isBirthFieldFilter (pyLower kv.1) && kv.2 ≠ "" then
      match birthLevelFilter bd kv.2 with
      | some q => q
      | none => birthScoreFilter bd rest
    else birthScoreFilter bd rest

/-- The composite match score of one record, mirroring the four scoring
blocks of apply_strong_match_filter. -/
def recordMatchScore (rec : Rec) (nd : NameData) (bd : String) : ℚ :=
  let surname0 : ℚ :=
    match firstMatchValue isSurnameField rec with
    | some v => calculate_similarity (pyLower v) nd.surname * 35
    | none => 0
  let surnameScore : ℚ :=
    if surname0 < 20 && fullNameContains rec nd.surname then 20 else surname0
  let first0 : ℚ :=
    if nd.first_name = "" then 0
    else
      match firstMatchValue isFirstNameField rec with
      | some v => calculate_similarity (pyLower v) nd.first_name * 25
      | none => 0
  let firstScore : ℚ :=
    if first0 = 0 && nd.first_name ≠ "" && fullNameContains rec nd.first_name then 15
    else first0
  let patScore : ℚ :=
    if nd.patronymic = "" then 0
    else
      let pat0 : ℚ :=
        match firstMatchValue isPatronymicField rec with
        | some v => calculate_similarity (pyLower v) nd.patronymic * 15
        | none => 0
      if pat0 = 0 && fullNameContains rec nd.patronymic then 7 else pat0
  surnameScore + firstScore + patScore + birthScoreFilter bd rec

/-- The records of one response annotated in traversal order. -/
def candidatesOfResponse (rk : String) (resp : ApiListResp) (nd : NameData) (bd : String) :
    List ScoredRec :=
  match resp with
  | none => []
  | some dbs =>
    dbs.foldr (fun q acc =>
      (match q.2 with
       | none => []
       | some data =>
         if q.1 = "No results found" then []
         else data.map (fun rec => ⟨rec, q.1, rk, recordMatchScore rec nd bd⟩)) ++ acc) []

/-- All annotated records of all responses, in traversal order. -/
def strongMatchCandidates (results : List (String × ApiListResp)) (nd : NameData)
    (bd : String) : List ScoredRec :=
  results.foldr (fun p acc => candidatesOfResponse p.1 p.2 nd bd ++ acc) []

/-- Stable insertion for descending sort by match score: a new element goes
after all existing elements with a score at least as large. -/
def insertDescSR (x : ScoredRec) : List ScoredRec → List ScoredRec
  | [] => [x]
  | y :: ys => if x.matchScore > y.matchScore then x :: y :: ys else y :: insertDescSR x ys

/-- Stable descending sort by match score (the Python list.sort with a
reverse key is stable). -/
def sortDescSR (l : List ScoredRec) : List ScoredRec :=
  l.foldl (fun acc x => insertDescSR x acc) []

/-- Embedding of apply_strong_match_filter: annotate and score every record
of every response, keep those with a score of at least fifty, sort by
descending score. -/
def apply_strong_match_filter (results : List (String × ApiListResp)) (nd : NameData)
    (bd : String) : List ScoredRec :=
  sortDescSR ((strongMatchCandidates results nd bd).filter (fun r => 50 ≤ r.matchScore))



theorem simA : calculate_similarity (pyLower "ivanov") "ivanov" = 1 := by
  have hd : levenshtein_distance (pyStrip (pyLower (pyLower "ivanov"))).toList
      (pyStrip (pyLower "ivanov")).toList = 0 := by decide
  have hm : max (pyStrip (pyLower (pyLower "ivanov"))).length
      (pyStrip (pyLower "ivanov")).length = 6 := by decide
  unfold calculate_similarity
  simp only []
  rw [hd, hm]
  norm_num

theorem simB : calculate_similarity (pyLower "iva") "ivanov" = 1 / 2 := by
  have hd : levenshtein_distance (pyStrip (pyLower (pyLower "iva"))).toList
      (pyStrip (pyLower "ivanov")).toList = 3 := by decide
  have hm : max (pyStrip (pyLower (pyLower "iva"))).length
      (pyStrip (pyLower "ivanov")).length = 6 := by decide
  unfold calculate_similarity
  simp only []
  rw [hd, hm]
  norm_num

theorem scoreA : recordMatchScore [("surname", "ivanov"), ("birth_date", "2000-01-01")]
    ⟨"ivanov", "ivan", ""⟩ "2000-01-01" = 60 := by
  have hb : birthScoreFilter "2000-01-01" [("surname", "ivanov"), ("birth_date", "2000-01-01")]
      = 25 := by simp +decide [birthScoreFilter, birthLevelFilter]
  unfold recordMatchScore
  simp only []
  rw [show firstMatchValue isSurnameField [("surname", "ivanov"), ("birth_date", "2000-01-01")]
      = some "ivanov" from by decide]
  rw [show firstMatchValue isFirstNameField [("surname", "ivanov"), ("birth_date", "2000-01-01")]
      = none from by decide]
  rw [show fullNameContains [("surname", "ivanov"), ("birth_date", "2000-01-01")] "ivanov"
      = false from by decide]
  rw [show fullNameContains [("surname", "ivanov"), ("birth_date", "2000-01-01")] "ivan"
      = false from by decide]
  rw [hb]
  simp only [simA]
  norm_num

theorem scoreB : recordMatchScore [("surname", "iva")] ⟨"ivanov", "ivan", ""⟩ "2000-01-01"
    = 35 / 2 := by
  have hb : birthScoreFilter "2000-01-01" [("surname", "iva")] = 0 := by
    simp +decide [birthScoreFilter, birthLevelFilter]
  unfold recordMatchScore
  simp only []
  rw [show firstMatchValue isSurnameField [("surname", "iva")] = some "iva" from by decide]
  rw [show firstMatchValue isFirstNameField [("surname", "iva")] = none from by decide]
  rw [show fullNameContains [("surname", "iva")] "ivanov" = false from by decide]
  rw [show fullNameContains [("surname", "iva")] "ivan" = false from by decide]
  rw [hb]
  simp only [simB]
  norm_num

theorem filter_concrete :
    apply_strong_match_filter
      [("primary_response",
        some [("DB1", some [[("surname", "ivanov"), ("birth_date", "2000-01-01")],
                            [("surname", "iva")]])])]
      ⟨"ivanov", "ivan", ""⟩ "2000-01-01"
      = [⟨[("surname", "ivanov"), ("birth_date", "2000-01-01")], "DB1", "primary_response", 60⟩]
    := by
  have hcand : strongMatchCandidates
      [("primary_response",
        some [("DB1", some [[("surname", "ivanov"), ("birth_date", "2000-01-01")],
                            [("surname", "iva")]])])]
      ⟨"ivanov", "ivan", ""⟩ "2000-01-01"
      = [⟨[("surname", "ivanov"), ("birth_date", "2000-01-01")], "DB1", "primary_response", 60⟩,
         ⟨[("surname", "iva")], "DB1", "primary_response", 35 / 2⟩] := by
    unfold strongMatchCandidates candidatesOfResponse
    simp +decide [scoreA, scoreB]
  unfold apply_strong_match_filter
  rw [hcand]
  rw [show List.filter (fun r : ScoredRec => decide (50 ≤ r.matchScore))
      [⟨[("surname", "ivanov"), ("birth_date", "2000-01-01")], "DB1", "primary_response", 60⟩,
       ⟨[("surname", "iva")], "DB1", "primary_response", 35 / 2⟩]
      = [⟨[("surname", "ivanov"), ("birth_date", "2000-01-01")], "DB1", "primary_response", 60⟩]
    from by
      simp [List.filter]
      norm_num]
  rfl


theorem insertDescSR_perm (x : ScoredRec) (l : List ScoredRec) :
    (insertDescSR x l).Perm (x :: l) := by
  induction l with
  | nil => rfl
  | cons y ys ih =>
    unfold insertDescSR
    by_cases h : x.matchScore > y.matchScore
    · rw [if_pos h]
    · rw [if_neg h]
      exact (ih.cons y).trans (List.Perm.swap x y ys)

theorem sortDescSR_perm (l : List ScoredRec) : (sortDescSR l).Perm l := by
  suffices h : ∀ (l acc : List ScoredRec),
      (l.foldl (fun acc x => insertDescSR x acc) acc).Perm (acc ++ l) by
    have := h l []
    simpa [sortDescSR] using this
  intro l
  induction l with
  | nil => intro acc; simp
  | cons a l ih =>
    intro acc
    rw [List.foldl_cons]
    have h1 := ih (insertDescSR a acc)
    have h3 : (insertDescSR a acc).Perm (a :: acc) := insertDescSR_perm a acc
    have h2 : (insertDescSR a acc ++ l).Perm (acc ++ a :: l) :=
      (h3.append_right l).trans List.perm_middle.symm
    exact h1.trans h2

theorem mem_sortDescSR (r : ScoredRec) (l : List ScoredRec) :
    r ∈ sortDescSR l ↔ r ∈ l :=
  (sortDescSR_perm l).mem_iff

theorem insertDescSR_pairwise (x : ScoredRec) (l : List ScoredRec)
    (h : l.Pairwise (fun a b => b.matchScore ≤ a.matchScore)) :
    (insertDescSR x l).Pairwise (fun a b => b.matchScore ≤ a.matchScore) := by
  induction l with
  | nil => simp [insertDescSR]
  | cons y ys ih =>
    rw [List.pairwise_cons] at h
    unfold insertDescSR
    by_cases hc : x.matchScore > y.matchScore
    · rw [if_pos hc]
      refine List.Pairwise.cons ?_ (List.Pairwise.cons h.1 h.2)
      intro z hz
      rcases List.mem_cons.mp hz with hz1 | hz1
      · rw [hz1]
        exact le_of_lt hc
      · exact le_trans (h.1 z hz1) (le_of_lt hc)
    · rw [if_neg hc]
      refine List.Pairwise.cons ?_ (ih h.2)
      intro z hz
      rcases List.mem_cons.mp ((insertDescSR_perm x ys).mem_iff.mp hz) with hz1 | hz1
      · rw [hz1]
        exact le_of_not_lt hc
      · exact h.1 z hz1

theorem sortDescSR_pairwise (l : List ScoredRec) :
    (sortDescSR l).Pairwise (fun a b => b.matchScore ≤ a.matchScore) := by
  suffices h : ∀ (l acc : List ScoredRec),
      acc.Pairwise (fun a b => b.matchScore ≤ a.matchScore) →
      (l.foldl (fun acc x => insertDescSR x acc) acc).Pairwise
        (fun a b => b.matchScore ≤ a.matchScore) by
    exact h l [] (by simp)
  intro l
  induction l with
  | nil => intro acc hacc; simpa using hacc
  | cons a l ih =>
    intro acc hacc
    rw [List.foldl_cons]
    exact ih _ (insertDescSR_pairwise a acc hacc)


/-- Claim C5: the strong-match filter returns exactly the annotated records
whose composite weighted score reaches fifty, sorted in non-increasing
score order; in the concrete two-record instance the record with surname
similarity one and exact birthdate scores sixty and survives alone, while
the record with surname similarity one half and no date match scores
thirty-five halves, strictly less, and is dropped. -/
theorem claim_C5_strong_match_filter :
    (∀ (results : List (String × ApiListResp)) (nd : NameData) (bd : String) (r : ScoredRec),
      r ∈ apply_strong_match_filter results nd bd ↔
        r ∈ strongMatchCandidates results nd bd ∧ 50 ≤ r.matchScore) ∧
    (∀ (results : List (String × ApiListResp)) (nd : NameData) (bd : String),
      (apply_strong_match_filter results nd bd).Pairwise
        (fun a b => b.matchScore ≤ a.matchScore)) ∧
    (apply_strong_match_filter
        [("primary_response",
          some [("DB1", some [[("surname", "ivanov"), ("birth_date", "2000-01-01")],
                              [("surname", "iva")]])])]
        ⟨"ivanov", "ivan", ""⟩ "2000-01-01"
      = [⟨[("surname", "ivanov"), ("birth_date", "2000-01-01")], "DB1", "primary_response", 60⟩] ∧
     recordMatchScore [("surname", "iva")] ⟨"ivanov", "ivan", ""⟩ "2000-01-01" = 35 / 2 ∧
     ¬(50 ≤ (35 / 2 : ℚ)) ∧ (35 / 2 : ℚ) < 60) := by
  refine ⟨?_, ?_, filter_concrete, scoreB, by norm_num, by norm_num⟩
  · intro results nd bd r
    unfold apply_strong_match_filter
    rw [mem_sortDescSR]
    simp [List.mem_filter]
  · intro results nd bd
    exact sortDescSR_pairwise _



/-! ### score_phones and calculate_phone_score
(src/name_dob_search.py lines 663-710 and 797-935) -/

/-- A record as consumed by the phone scorer: its fields plus the service
annotations possibly added by earlier stages. -/
structure SRec where
  fields : Rec
  sourceDb : Option String
  matchScore : Option ℚ
deriving DecidableEq, Repr

/-- Field-name predicate of the phone scan in score_phones. -/
def isPhoneFieldScore (f : String) : Bool :=
  strContainsB f "phone" || strContainsB f "телефон" || strContainsB f "тел" ||
    strContainsB f "mobile"

/-- Field-name predicate of the birthdate factor of the phone score. -/
def isBirthFieldScore (f : String) : Bool :=
  strContainsB f "birth" || strContainsB f "рождения" || strContainsB f "dob"

/-- The level of a birthdate match in the phone score. -/
def birthLevelPhone (bd v : String) : Option ℚ :=
  if bd = v || convert_date_format v = bd then some 10
  else if strTake bd 7 = strTake v 7 || strTake bd 7 = strTake (convert_date_format v) 7
  then some 7
  else if strTake bd 4 = strTake v 4 || strTake bd 4 = strTake (convert_date_format v) 4
  then some 5
  else none

/-- Scan for the first birth-like truthy field that matches at some level. -/
def birthScorePhone (bd : String) : Rec → ℚ
  | [] => 0
  | kv :: rest =>
    if isBirthFieldScore (pyLower kv.1) && kv.2 ≠ "" then
      match birthLevelPhone bd kv.2 with
      | some q => q
      | none => birthScorePhone bd rest
    else birthScorePhone bd rest

/-- The static priority table of factor five of the phone score. -/
def priorityDbsScore (db : String) : ℚ :=
  if db = "Gosuslugi 2024" then 5
  else if db = "BolshayaPeremena" then 5
  else if db = "AlfaBank 2023 v2" then 4
  else if db = "ScanTour.ru" then 4
  else if db = "Resh.Edu" then 3
  else if db = "ProPostuplenie.ru" then 3
  else if db = "Dobro.ru" then 3
  else if db = "LeaderID" then 3
  else if db = "TrudVsem.ru" then 2
  else 0

/-- Embedding of calculate_phone_score: base fifty, plus validity, phone
type, weighted name similarity, birthdate match, source priority and the
carried-over record match score, clamped to the range zero to one hundred. -/
def calculate_phone_score (phone : String) (src : SRec) (nd : NameData) (bd : String) : ℚ :=
  let f1 : ℚ := if is_valid_phone phone then 20 else 0
  let pt := detect_phone_type phone
  let f2 : ℚ := if pt = "mobile" then 15 else if pt = "landline" then 10
    else if pt = "tollfree" then 5 else 0
  let ssim : ℚ :=
    match firstMatchValue isSurnameField src.fields with
    | some v => calculate_similarity (pyLower v) nd.surname
    | none => 0
  let fsim : ℚ :=
    if nd.first_name = "" then 0
    else
      match firstMatchValue isFirstNameField src.fields with
      | some v => calculate_similarity (pyLower v) nd.first_name
      | none => 0
  let f3 : ℚ := if ssim > 0 || fsim > 0 then (ssim * (6 / 10) + fsim * (4 / 10)) * 15 else 0
  let f4 : ℚ := birthScorePhone bd src.fields
  let f5 : ℚ := match src.sourceDb with | some db => priorityDbsScore db | none => 0
  let f6 : ℚ :=
    match src.matchScore with
    | some ms => if ms ≥ 75 then 5 else if ms ≥ 60 then 3 else if ms ≥ 50 then 1 else 0
    | none => 0
  min (max (50 + f1 + f2 + f3 + f4 + f5 + f6) 0) 100

/-- One scored phone candidate of score_phones. -/
structure PhoneEntry where
  phone : String
  score : ℚ
  source : SRec
deriving DecidableEq, Repr

/-- The in-place update of score_phones: an already-seen phone keeps its
position and takes the better score; a new phone is appended. -/
def updatePhones : List PhoneEntry → String → ℚ → SRec → List PhoneEntry
  | [], p, sc, src => [⟨p, sc, src⟩]
  | e :: rest, p, sc, src =>
    if e.phone = p then (if sc > e.score then ⟨p, sc, src⟩ else e) :: rest
    else e :: updatePhones rest p sc src

/-- The scan of one record of score_phones: every phone-like truthy field
is normalised, gated by is_valid_phone, scored, and merged. -/
def scanRecordPhones (nd : NameData) (bd : String) (rec : SRec) (acc : List PhoneEntry) :
    List PhoneEntry :=
  rec.fields.foldl (fun a kv =>
    if isPhoneFieldScore (pyLower kv.1) && kv.2 ≠ "" then
      match normalize_phone kv.2 with
      | some p =>
        if is_valid_phone p then updatePhones a p (calculate_phone_score p rec nd bd) rec
        else a
      | none => a
    else a) acc

/-- Stable insertion for descending sort of phone entries. -/
def insertDescPE (x : PhoneEntry) : List PhoneEntry → List PhoneEntry
  | [] => [x]
  | y :: ys => if x.score > y.score then x :: y :: ys else y :: insertDescPE x ys

/-- Stable descending sort of phone entries by score. -/
def sortDescPE (l : List PhoneEntry) : List PhoneEntry :=
  l.foldl (fun acc x => insertDescPE x acc) []

/-- Embedding of score_phones. -/
def score_phones (results : List SRec) (nd : NameData) (bd : String) : List PhoneEntry :=
  sortDescPE (results.foldl (fun a r => scanRecordPhones nd bd r a) [])


/-! ### extract_phones_recursive (src/api_client.py lines 688-817) -/

/-- A Python JSON-like value: a mapping with string keys, a list, a scalar
carried as its str() image, or None. -/
inductive PyVal where
  | dict : List (String × PyVal) → PyVal
  | arr : List PyVal → PyVal
  | prim : String → PyVal
  | pynone : PyVal

/-- The phone field markers of the recursive extractor. -/
def phoneFieldMarkersRec : List String :=
  ["phone", "телефон", "тел", "моб", "mobile", "contact"]

/-- The digit reduction of the field path: the eight-to-seven replacement
on eleven digits, or else the seven prefix on ten digits. -/
def reduce10 (digits : String) : String :=
  if startsWithB digits "8" && digits.length = 11 then "7" ++ strDrop digits 1
  else if digits.length = 10 && !(startsWithB digits "7") then "7" ++ digits
  else digits

/-- The digit reduction of the scalar regular-expression path: only the
eight-to-seven replacement. -/
def reduce11 (digits : String) : String :=
  if startsWithB digits "8" then "7" ++ strDrop digits 1 else digits

/-- The value reduction of the field path of the recursive extractor: at
least ten digits, the reduction, and acceptance only of eleven digits with
a leading seven. -/
def fieldPhoneValue : PyVal → Option String
  | .prim s =>
    let digits := digitsOf s
    if digits.length ≥ 10 then
      if startsWithB (reduce10 digits) "7" && (reduce10 digits).length = 11
      then some (reduce10 digits) else none
    else none
  | _ => none

/-- The reduction of one regular-expression match of the scalar path:
exactly eleven digits, the eight-to-seven replacement, leading seven. -/
def regexPhoneValue (m : String) : Option String :=
  let digits := digitsOf m
  if digits.length = 11 then
    if startsWithB (reduce11 digits) "7" then some (reduce11 digits) else none
  else none

/-- Insertion into the accumulated set of phones (first-seen order). -/
def addPhone (acc : List String) (p : String) : List String :=
  if acc.contains p then acc else acc ++ [p]

mutual

/-- The recursive walk of extract_phones_recursive.  The first argument
abstracts re.findall of the two phone patterns over the str() image of a
scalar; the accumulated list stands for the phones set. -/
def walkPhones (fa : String → List String) : PyVal → List String → List String
  | .dict kvs, acc =>
    let acc1 := kvs.foldl (fun a kv =>
      if phoneFieldMarkersRec.any (fun m => strContainsB (pyLower kv.1) m) then
        match fieldPhoneValue kv.2 with
        | some p => addPhone a p
        | none => a
      else a) acc
    walkDict fa kvs acc1
  | .arr items, acc => walkArr fa items acc
  | .prim s, acc =>
    (fa s).foldl (fun a m =>
      match regexPhoneValue m with | some p => addPhone a p | none => a) acc
  | .pynone, acc =>
    (fa "None").foldl (fun a m =>
      match regexPhoneValue m with | some p => addPhone a p | none => a) acc

/-- Recursive descent into the values of a mapping. -/
def walkDict (fa : String → List String) : List (String × PyVal) → List String → List String
  | [], acc => acc
  | kv :: rest, acc => walkDict fa rest (walkPhones fa kv.2 acc)

/-- Recursive descent into the items of a list. -/
def walkArr (fa : String → List String) : List PyVal → List String → List String
  | [], acc => acc
  | v :: rest, acc => walkArr fa rest (walkPhones fa v acc)

end

/-- Embedding of extract_phones_recursive: None yields the empty list,
anything else is walked with an empty accumulator. -/
def extract_phones_recursive (fa : String → List String) : PyVal → List String
  | .pynone => []
  | v => walkPhones fa v []


/-! ### extract_phones_batch (src/file_processing.py lines 108-189) -/

/-- A record of a batch response: none models a non-mapping entry. -/
abbrev BatchRec := Option Rec

/-- A batch response: the falsy-or-error guard, and the databases of the
List key with their optional Data lists. -/
structure BatchResp where
  emptyOrError : Bool
  dbs : Option (List (String × Option (List BatchRec)))

/-- The exact identifier field names recognised by the batch extractor. -/
def batchIdFieldNames : List String := ["vkid", "vk_id", "vk id", "id", "userid"]

/-- The phone field markers of the batch extractor. -/
def batchPhoneMarkers : List String := ["phone", "телефон", "тел", "tel", "мобильный"]

/-- Append an index to the entry of a key, keeping insertion order. -/
def assocAppend (m : List (String × List Nat)) (k : String) (i : Nat) :
    List (String × List Nat) :=
  match m with
  | [] => [(k, [i])]
  | (k2, v) :: rest => if k2 = k then (k2, v ++ [i]) :: rest else (k2, v) :: assocAppend rest k i

/-- The mapping from identifier to record indices built by the batch
extractor (vk_id_to_indices). -/
def vkIdIndices (vkIds : List String) (data : List BatchRec) : List (String × List Nat) :=
  (data.foldl (fun (st : List (String × List Nat) × Nat) r =>
    (match r with
     | none => st.1
     | some rec =>
       rec.foldl (fun m2 kv =>
         if batchIdFieldNames.contains (pyLower kv.1) then
           (if vkIds.contains (pyStrip kv.2) then assocAppend m2 (pyStrip kv.2) st.2 else m2)
         else m2) st.1, st.2 + 1)) ([], 0)).1

/-- Collect the guarded phone values of one record into the accumulator. -/
def phonesOfRecord (r : BatchRec) (acc : List String) : List String :=
  match r with
  | none => acc
  | some rec =>
    rec.foldl (fun a kv =>
      if batchPhoneMarkers.any (fun m => strContainsB (pyLower kv.1) m) && kv.2 ≠ "" then
        let digits := digitsOf kv.2
        if startsWithB digits "79" && 11 ≤ digits.length then
          (if a.contains digits then a else a ++ [digits])
        else a
      else a) acc

/-- The offsets of the neighbourhood scan, zero excluded. -/
def neighborOffsets : List Int := [-3, -2, -1, 1, 2, 3]

/-- The phones found for the indices of one identifier: the record itself,
then the records at most three positions away. -/
def phonesForIndices (data : List BatchRec) (indices : List Nat) : List String :=
  indices.foldl (fun acc idx =>
    let acc1 := phonesOfRecord (data.getD idx none) acc
    neighborOffsets.foldl (fun a off =>
      let ci : Int := (idx : Int) + off
      if 0 ≤ ci ∧ ci < (data.length : Int) then phonesOfRecord (data.getD ci.toNat none) a
      else a) acc1) []

/-- The result dictionary initialised with an empty list per identifier
(duplicates collapse as in a Python dict comprehension). -/
def initResults (ids : List String) : List (String × List String) :=
  ids.foldl (fun acc id => if acc.any (fun q => q.1 = id) then acc else acc ++ [(id, [])]) []

/-- Extend the entry of one key of the result dictionary. -/
def extendResult (m : List (String × List String)) (k : String) (ps : List String) :
    List (String × List String) :=
  m.map (fun q => if q.1 = k then (q.1, q.2 ++ ps) else q)

/-- Process one database of the batch response. -/
def processDb (vkIds : List String) (dbData : Option (List BatchRec))
    (result : List (String × List String)) : List (String × List String) :=
  match dbData with
  | none => result
  | some data =>
    if data.isEmpty then result
    else
      (vkIdIndices vkIds data).foldl (fun res q =>
        let ps := phonesForIndices data q.2
        if ps ≠ [] then extendResult res q.1 ps else res) result

/-- Ascending insertion sort of strings (the Python sorted builtin). -/
def insertAscStr (x : String) : List String → List String
  | [] => [x]
  | y :: ys => if x < y then x :: y :: ys else y :: insertAscStr x ys

/-- Ascending sort of strings. -/
def sortAscStr (l : List String) : List String := l.foldl (fun a x => insertAscStr x a) []

/-- Embedding of extract_phones_batch. -/
def extract_phones_batch (resp : BatchResp) (vkIds : List String) :
    List (String × List String) :=
  if resp.emptyOrError then initResults vkIds
  else
    match resp.dbs with
    | none => initResults vkIds
    | some dbs =>
      let result := dbs.foldl (fun res q => processDb vkIds q.2 res) (initResults vkIds)
      result.map (fun q => (q.1, sortAscStr q.2.dedup))

example :
    extract_phones_batch
      ⟨false, some [("DB", some [some [("vkid", "1"), ("phone", "791234567890")]])]⟩ ["1"]
      = [("1", ["791234567890"])] := by decide



/-- Generic preservation of a membership invariant by a left fold. -/
theorem foldl_preserve {α β : Type} (P : β → Prop) (f : List β → α → List β)
    (hf : ∀ acc x, (∀ q ∈ acc, P q) → ∀ q ∈ f acc x, P q) :
    ∀ (l : List α) (acc : List β), (∀ q ∈ acc, P q) → ∀ q ∈ l.foldl f acc, P q := by
  intro l
  induction l with
  | nil => intro acc h; simpa using h
  | cons x xs ih =>
    intro acc h
    rw [List.foldl_cons]
    exact ih (f acc x) (hf acc x h)

theorem addPhone_mem (acc : List String) (p q : String) (h : q ∈ addPhone acc p) :
    q ∈ acc ∨ q = p := by
  unfold addPhone at h
  split at h
  · exact Or.inl h
  · rcases List.mem_append.mp h with h1 | h1
    · exact Or.inl h1
    · exact Or.inr (List.mem_singleton.mp h1)

theorem reduce10_all_digit (d : String) (hd : d.toList.all pyIsDigit = true) :
    (reduce10 d).toList.all pyIsDigit = true := by
  unfold reduce10
  split
  · exact all_digit_append7 _ (all_digit_strDrop _ 1 hd)
  · split
    · exact all_digit_append7 _ hd
    · exact hd

theorem reduce11_all_digit (d : String) (hd : d.toList.all pyIsDigit = true) :
    (reduce11 d).toList.all pyIsDigit = true := by
  unfold reduce11
  split
  · exact all_digit_append7 _ (all_digit_strDrop _ 1 hd)
  · exact hd

theorem reduce11_length (d : String) (h : d.length = 11) : (reduce11 d).length = 11 := by
  unfold reduce11
  split
  · rw [length7_append, length_strDrop]
    omega
  · exact h

theorem fieldPhoneValue_ok (v : PyVal) (p : String) (h : fieldPhoneValue v = some p) :
    matchesPhone7 p = true := by
  cases v with
  | prim s =>
    unfold fieldPhoneValue at h
    simp only [] at h
    split at h
    · split at h
      case isTrue hok =>
        simp only [Option.some.injEq] at h
        subst h
        rw [matchesPhone7_eq _ (reduce10_all_digit _ (digitsOf_all_digit s))]
        simp only [Bool.and_eq_true, decide_eq_true_eq] at hok
        simp [hok.1, hok.2]
      case isFalse => exact absurd h (by simp)
    · exact absurd h (by simp)
  | dict kvs => exact absurd h (by simp [fieldPhoneValue])
  | arr l => exact absurd h (by simp [fieldPhoneValue])
  | pynone => exact absurd h (by simp [fieldPhoneValue])

theorem regexPhoneValue_ok (m p : String) (h : regexPhoneValue m = some p) :
    matchesPhone7 p = true := by
  unfold regexPhoneValue at h
  simp only [] at h
  split at h
  case isTrue hlen =>
    split at h
    case isTrue hok =>
      simp only [Option.some.injEq] at h
      subst h
      rw [matchesPhone7_eq _ (reduce11_all_digit _ (digitsOf_all_digit m))]
      simp [reduce11_length _ hlen, hok]
    case isFalse => exact absurd h (by simp)
  case isFalse => exact absurd h (by simp)


theorem walkPhones_ok (fa : String → List String) (v : PyVal) (acc : List String)
    (hacc : ∀ q ∈ acc, matchesPhone7 q = true) :
    ∀ q ∈ walkPhones fa v acc, matchesPhone7 q = true := by
  refine walkPhones.induct fa
    (fun v acc => (∀ q ∈ acc, matchesPhone7 q = true) →
      ∀ q ∈ walkPhones fa v acc, matchesPhone7 q = true)
    (fun items acc => (∀ q ∈ acc, matchesPhone7 q = true) →
      ∀ q ∈ walkArr fa items acc, matchesPhone7 q = true)
    (fun kvs acc => (∀ q ∈ acc, matchesPhone7 q = true) →
      ∀ q ∈ walkDict fa kvs acc, matchesPhone7 q = true)
    ?_ ?_ ?_ ?_ ?_ ?_ ?_ ?_ v acc hacc
  · -- dict node
    intro kvs acc
    intro acc1 ih hacc1
    rw [walkPhones]
    apply ih
    refine foldl_preserve _ _ ?_ kvs acc hacc1
    intro a kv ha q hq
    revert hq
    split
    · intro hq
      cases hfv : fieldPhoneValue kv.2 with
      | some p =>
        rw [hfv] at hq
        rcases addPhone_mem a p q hq with h1 | h1
        · exact ha q h1
        · rw [h1]
          exact fieldPhoneValue_ok kv.2 p hfv
      | none =>
        rw [hfv] at hq
        exact ha q hq
    · intro hq
      exact ha q hq
  · -- list node
    intro items acc iharr hacc1
    rw [walkPhones]
    exact iharr hacc1
  · -- scalar node
    intro s acc hacc1
    rw [walkPhones]
    refine foldl_preserve _ _ ?_ (fa s) acc hacc1
    intro a m ha q hq
    revert hq
    cases hrv : regexPhoneValue m with
    | some p =>
      intro hq
      rcases addPhone_mem a p q hq with h1 | h1
      · exact ha q h1
      · rw [h1]
        exact regexPhoneValue_ok m p hrv
    | none =>
      intro hq
      exact ha q hq
  · -- None node
    intro acc hacc1
    rw [walkPhones]
    refine foldl_preserve _ _ ?_ (fa "None") acc hacc1
    intro a m ha q hq
    revert hq
    cases hrv : regexPhoneValue m with
    | some p =>
      intro hq
      rcases addPhone_mem a p q hq with h1 | h1
      · exact ha q h1
      · rw [h1]
        exact regexPhoneValue_ok m p hrv
    | none =>
      intro hq
      exact ha q hq
  · -- walkDict nil
    intro acc hacc1
    rw [walkDict]
    exact hacc1
  · -- walkDict cons
    intro kv rest acc ih1 ih2 hacc1
    rw [walkDict]
    exact ih2 (ih1 hacc1)
  · -- walkArr nil
    intro acc hacc1
    rw [walkArr]
    exact hacc1
  · -- walkArr cons
    intro x rest acc ih1 ih2 hacc1
    rw [walkArr]
    exact ih2 (ih1 hacc1)

theorem extract_phones_recursive_ok (fa : String → List String) (v : PyVal) :
    ∀ q ∈ extract_phones_recursive fa v, matchesPhone7 q = true := by
  cases v with
  | pynone => intro q hq; exact absurd hq (by simp [extract_phones_recursive])
  | dict kvs => exact walkPhones_ok fa _ [] (by simp)
  | arr l => exact walkPhones_ok fa _ [] (by simp)
  | prim s => exact walkPhones_ok fa _ [] (by simp)


/-- The shape guaranteed by the batch extractor: a digit string of length
at least eleven starting with seven nine. -/
def batchPhoneOk (p : String) : Prop :=
  startsWithB p "79" = true ∧ 11 ≤ p.length ∧ p.toList.all pyIsDigit = true

theorem phonesOfRecord_ok (r : BatchRec) (acc : List String)
    (hacc : ∀ q ∈ acc, batchPhoneOk q) : ∀ q ∈ phonesOfRecord r acc, batchPhoneOk q := by
  cases r with
  | none => simpa [phonesOfRecord] using hacc
  | some rec =>
    unfold phonesOfRecord
    refine foldl_preserve _ _ ?_ rec acc hacc
    intro a kv ha q hq
    revert hq
    split
    · simp only []
      split
      case isTrue hg =>
        split
        · intro hq
          exact ha q hq
        case isFalse hmem =>
          intro hq
          rcases List.mem_append.mp hq with h1 | h1
          · exact ha q h1
          · rw [List.mem_singleton.mp h1]
            simp only [Bool.and_eq_true, decide_eq_true_eq] at hg
            exact ⟨hg.1, hg.2, digitsOf_all_digit kv.2⟩
      case isFalse =>
        intro hq
        exact ha q hq
    · intro hq
      exact ha q hq

theorem phonesForIndices_ok (data : List BatchRec) (indices : List Nat) :
    ∀ q ∈ phonesForIndices data indices, batchPhoneOk q := by
  unfold phonesForIndices
  refine foldl_preserve _ _ ?_ indices [] (by simp)
  intro acc idx hacc
  simp only []
  refine foldl_preserve _ _ ?_ neighborOffsets
    (phonesOfRecord (data.getD idx none) acc) (phonesOfRecord_ok _ _ hacc)
  intro a off ha q hq
  revert hq
  split
  · exact fun hq => phonesOfRecord_ok _ _ ha q hq
  · exact fun hq => ha q hq

/-- The invariant of the result dictionary. -/
def resOk (m : List (String × List String)) : Prop :=
  ∀ q ∈ m, ∀ p ∈ q.2, batchPhoneOk p

theorem initResults_ok (ids : List String) : resOk (initResults ids) := by
  unfold initResults resOk
  refine foldl_preserve _ _ ?_ ids [] (by simp)
  intro acc id hacc q hq
  revert hq
  split
  · exact fun hq => hacc q hq
  · intro hq
    rcases List.mem_append.mp hq with h1 | h1
    · exact hacc q h1
    · rw [List.mem_singleton.mp h1]
      simp

theorem extendResult_ok (m : List (String × List String)) (k : String) (ps : List String)
    (hm : resOk m) (hps : ∀ p ∈ ps, batchPhoneOk p) : resOk (extendResult m k ps) := by
  intro q hq p hp
  unfold extendResult at hq
  rcases List.mem_map.mp hq with ⟨q0, hq0, hq1⟩
  revert hq1
  split
  · intro hq1
    rw [← hq1] at hp
    rcases List.mem_append.mp hp with h1 | h1
    · exact hm q0 hq0 p h1
    · exact hps p h1
  · intro hq1
    rw [← hq1] at hp
    exact hm q0 hq0 p hp

theorem processDb_ok (vkIds : List String) (dbData : Option (List BatchRec))
    (result : List (String × List String)) (h : resOk result) :
    resOk (processDb vkIds dbData result) := by
  unfold processDb
  split
  · exact h
  · split
    · exact h
    · refine foldl_preserve (fun (q : String × List String) => ∀ p ∈ q.2, batchPhoneOk p) _ ?_
        _ result h
      intro res q0 hres q hq
      revert hq
      simp only []
      split
      · intro hq
        exact extendResult_ok res q0.1 _ hres (phonesForIndices_ok _ q0.2) q hq
      · exact fun hq => hres q hq

theorem mem_insertAscStr (x q : String) (l : List String) :
    q ∈ insertAscStr x l ↔ q = x ∨ q ∈ l := by
  induction l with
  | nil => simp [insertAscStr]
  | cons y ys ih =>
    unfold insertAscStr
    split
    · simp
    · simp only [List.mem_cons, ih]
      tauto

theorem mem_sortAscStr (q : String) (l : List String) : q ∈ sortAscStr l ↔ q ∈ l := by
  suffices h : ∀ (l acc : List String), (q ∈ l.foldl (fun a x => insertAscStr x a) acc ↔
      q ∈ acc ∨ q ∈ l) by
    have := h l []
    simpa [sortAscStr] using this
  intro l
  induction l with
  | nil => intro acc; simp
  | cons x xs ih =>
    intro acc
    rw [List.foldl_cons, ih, mem_insertAscStr]
    simp
    tauto

/-- The batch extractor guard, as an invariant of the whole function. -/
theorem extract_phones_batch_ok (resp : BatchResp) (vkIds : List String) :
    ∀ q ∈ extract_phones_batch resp vkIds, ∀ p ∈ q.2, batchPhoneOk p := by
  unfold extract_phones_batch
  split
  · exact initResults_ok vkIds
  · cases hd : resp.dbs with
    | none => exact initResults_ok vkIds
    | some dbs =>
      simp only []
      intro q hq p hp
      rcases List.mem_map.mp hq with ⟨q0, hq0, hq1⟩
      have hres : resOk (dbs.foldl (fun res q => processDb vkIds q.2 res) (initResults vkIds)) := by
        refine foldl_preserve (fun (q : String × List String) => ∀ p ∈ q.2, batchPhoneOk p) _ ?_
          dbs (initResults vkIds) (initResults_ok vkIds)
        intro res x hres0
        exact processDb_ok vkIds x.2 res hres0
      rw [← hq1] at hp
      simp only [] at hp
      rw [mem_sortAscStr] at hp
      rw [List.mem_dedup] at hp
      exact hres q0 hq0 p hp


theorem updatePhones_ok (Q : String → Prop) :
    ∀ (acc : List PhoneEntry) (p : String) (sc : ℚ) (src : SRec),
      (∀ e ∈ acc, Q e.phone) → Q p → ∀ e ∈ updatePhones acc p sc src, Q e.phone := by
  intro acc
  induction acc with
  | nil =>
    intro p sc src hacc hp e he
    rw [updatePhones] at he
    rw [List.mem_singleton.mp he]
    exact hp
  | cons x xs ih =>
    intro p sc src hacc hp e he
    rw [updatePhones] at he
    revert he
    split
    · intro he
      rcases List.mem_cons.mp he with h1 | h1
      · rw [h1]
        split
        · exact hp
        · exact hacc x (by simp)
      · exact hacc e (List.mem_cons_of_mem x h1)
    · intro he
      rcases List.mem_cons.mp he with h1 | h1
      · rw [h1]
        exact hacc x (by simp)
      · exact ih p sc src (fun e2 he2 => hacc e2 (List.mem_cons_of_mem x he2)) hp e h1

theorem scanRecordPhones_ok (nd : NameData) (bd : String) (rec : SRec)
    (acc : List PhoneEntry) (hacc : ∀ e ∈ acc, is_valid_phone e.phone = true) :
    ∀ e ∈ scanRecordPhones nd bd rec acc, is_valid_phone e.phone = true := by
  unfold scanRecordPhones
  refine foldl_preserve (fun (e : PhoneEntry) => is_valid_phone e.phone = true) _ ?_
    rec.fields acc hacc
  intro a kv ha e he
  split at he
  · cases hn : normalize_phone kv.2 with
    | some p =>
      rw [hn] at he
      simp only [] at he
      by_cases hv : is_valid_phone p = true
      · rw [if_pos hv] at he
        exact updatePhones_ok (fun s => is_valid_phone s = true) a p _ rec ha hv e he
      · rw [if_neg hv] at he
        exact ha e he
    | none =>
      rw [hn] at he
      simp only [] at he
      exact ha e he
  · exact ha e he

theorem insertDescPE_perm (x : PhoneEntry) (l : List PhoneEntry) :
    (insertDescPE x l).Perm (x :: l) := by
  induction l with
  | nil => rfl
  | cons y ys ih =>
    unfold insertDescPE
    by_cases h : x.score > y.score
    · rw [if_pos h]
    · rw [if_neg h]
      exact (ih.cons y).trans (List.Perm.swap x y ys)

theorem sortDescPE_perm (l : List PhoneEntry) : (sortDescPE l).Perm l := by
  suffices h : ∀ (l acc : List PhoneEntry),
      (l.foldl (fun acc x => insertDescPE x acc) acc).Perm (acc ++ l) by
    have := h l []
    simpa [sortDescPE] using this
  intro l
  induction l with
  | nil => intro acc; simp
  | cons a l ih =>
    intro acc
    rw [List.foldl_cons]
    have h3 : (insertDescPE a acc).Perm (a :: acc) := insertDescPE_perm a acc
    exact (ih (insertDescPE a acc)).trans ((h3.append_right l).trans List.perm_middle.symm)

/-- Every entry of score_phones passed the is_valid_phone gate. -/
theorem score_phones_ok (results : List SRec) (nd : NameData) (bd : String) :
    ∀ e ∈ score_phones results nd bd, is_valid_phone e.phone = true := by
  unfold score_phones
  intro e he
  rw [(sortDescPE_perm _).mem_iff] at he
  revert he
  refine foldl_preserve (fun (e : PhoneEntry) => is_valid_phone e.phone = true) _ ?_
    results [] (by simp) e
  intro a r ha
  exact scanRecordPhones_ok nd bd r a ha


theorem phone_score_85 :
    calculate_phone_score "7123456789" ⟨[("phone", "712-345-6789")], none, none⟩
      ⟨"ivanov", "ivan", ""⟩ "2000-01-01" = 85 := by
  unfold calculate_phone_score
  simp only []
  rw [show is_valid_phone "7123456789" = true from by decide]
  rw [show detect_phone_type "7123456789" = "mobile" from by decide]
  rw [show firstMatchValue isSurnameField [("phone", "712-345-6789")] = none from by decide]
  rw [show firstMatchValue isFirstNameField [("phone", "712-345-6789")] = none from by decide]
  rw [show birthScorePhone "2000-01-01" [("phone", "712-345-6789")] = 0 from by
    simp +decide [birthScorePhone]]
  norm_num

theorem score_phones_concrete :
    score_phones [⟨[("phone", "712-345-6789")], none, none⟩] ⟨"ivanov", "ivan", ""⟩ "2000-01-01"
      = [⟨"7123456789", 85, ⟨[("phone", "712-345-6789")], none, none⟩⟩] := by
  unfold score_phones
  rw [List.foldl_cons, List.foldl_nil]
  unfold scanRecordPhones
  rw [show (⟨[("phone", "712-345-6789")], none, none⟩ : SRec).fields
      = [("phone", "712-345-6789")] from rfl]
  rw [List.foldl_cons, List.foldl_nil]
  rw [if_pos (by decide)]
  rw [show normalize_phone ("phone", "712-345-6789").2 = some "7123456789" from by decide]
  simp only []
  rw [if_pos (by decide)]
  rw [show updatePhones [] "7123456789"
      (calculate_phone_score "7123456789" ⟨[("phone", "712-345-6789")], none, none⟩
        ⟨"ivanov", "ivan", ""⟩ "2000-01-01") ⟨[("phone", "712-345-6789")], none, none⟩
      = [⟨"7123456789",
          calculate_phone_score "7123456789" ⟨[("phone", "712-345-6789")], none, none⟩
            ⟨"ivanov", "ivan", ""⟩ "2000-01-01", ⟨[("phone", "712-345-6789")], none, none⟩⟩]
    from by rw [updatePhones]]
  rw [phone_score_85]
  rfl


theorem extract_recursive_concrete :
    extract_phones_recursive (fun _ => []) (.dict [("phone", PyVal.prim "79991234567")])
      = ["79991234567"] := by
  show walkPhones (fun _ => []) (.dict [("phone", PyVal.prim "79991234567")]) [] = _
  rw [walkPhones]
  rw [List.foldl_cons, List.foldl_nil]
  rw [if_pos (by decide)]
  rw [show fieldPhoneValue (PyVal.prim "79991234567") = some "79991234567" from by decide]
  simp only []
  rw [show addPhone [] "79991234567" = ["79991234567"] from by decide]
  rw [walkDict, walkDict]
  rw [walkPhones]
  rw [List.foldl_nil]


/-- Claim C1 counterexample: the batch extractor returns a twelve-digit
value, and the phone scorer admits a ten-digit value, neither of which
matches the eleven-digit leading-seven shape. -/
theorem claim_C1_counterexample :
    (extract_phones_batch
        ⟨false, some [("DB", some [some [("vkid", "1"), ("phone", "791234567890")]])]⟩ ["1"]
        = [("1", ["791234567890"])] ∧
      matchesPhone7 "791234567890" = false) ∧
    (score_phones [⟨[("phone", "712-345-6789")], none, none⟩] ⟨"ivanov", "ivan", ""⟩
        "2000-01-01"
        = [⟨"7123456789", 85, ⟨[("phone", "712-345-6789")], none, none⟩⟩] ∧
      matchesPhone7 "7123456789" = false) :=
  ⟨⟨by decide, by decide⟩, score_phones_concrete, by decide⟩

/-- Claim C1 amended: the recursive miner only ever returns strings that
match the eleven-digit leading-seven shape; the batch extractor guarantees
only a digit string of length at least eleven starting with seven nine;
the phone scorer gate guarantees only is_valid_phone, which also admits
ten-digit strings and strings longer than eleven digits. -/
theorem claim_C1_amended :
    (∀ (fa : String → List String) (v : PyVal) (p : String),
      p ∈ extract_phones_recursive fa v → matchesPhone7 p = true) ∧
    (∀ (resp : BatchResp) (ids : List String) (q : String × List String) (p : String),
      q ∈ extract_phones_batch resp ids → p ∈ q.2 →
        startsWithB p "79" = true ∧ 11 ≤ p.length ∧ p.toList.all pyIsDigit = true) ∧
    (∀ (results : List SRec) (nd : NameData) (bd : String) (e : PhoneEntry),
      e ∈ score_phones results nd bd → is_valid_phone e.phone = true) := by
  refine ⟨?_, ?_, ?_⟩
  · intro fa v p hp
    exact extract_phones_recursive_ok fa v p hp
  · intro resp ids q p hq hp
    exact extract_phones_batch_ok resp ids q hq p hp
  · intro results nd bd e he
    exact score_phones_ok results nd bd e he

/-- Witness for the amended C1 theorem at concrete inputs. -/
theorem claim_C1_amended_witness :
    matchesPhone7 "79991234567" = true ∧
    (startsWithB "791234567890" "79" = true ∧ 11 ≤ ("791234567890" : String).length ∧
      ("791234567890" : String).toList.all pyIsDigit = true) ∧
    is_valid_phone "7123456789" = true := by
  refine ⟨?_, ?_, ?_⟩
  · exact claim_C1_amended.1 (fun _ => []) (.dict [("phone", PyVal.prim "79991234567")])
      "79991234567" (by rw [extract_recursive_concrete]; simp)
  · exact claim_C1_amended.2.1
      ⟨false, some [("DB", some [some [("vkid", "1"), ("phone", "791234567890")]])]⟩ ["1"]
      ("1", ["791234567890"]) "791234567890" (by decide) (by decide)
  · exact claim_C1_amended.2.2 [⟨[("phone", "712-345-6789")], none, none⟩]
      ⟨"ivanov", "ivan", ""⟩ "2000-01-01"
      ⟨"7123456789", 85, ⟨[("phone", "712-345-6789")], none, none⟩⟩
      (by rw [score_phones_concrete]; simp)



/-! ### The cascading search orchestrator search_phone_by_name_and_birth_date
(src/name_dob_search.py lines 938-1265)

An upstream response is modelled by the five features the orchestrator
reads from it: whether the pinned marker literal occurs in its string
form, the captures of the four marked-phone regular expressions over that
string, the result of extract_phones_from_api_response, and the emails and
VK ids of analyze_first_stage_results. -/

structure ApiResp where
  markerPresent : Bool
  markedCaptures : List String
  minedPhones : List String
  minedEmails : List String
  minedVkIds : List String

/-- The three upstream entry points used by the orchestrator. -/
structure ApiOracle where
  searchByNameDob : String → ApiResp
  searchVkId : String → ApiResp
  makeRequest : String → ApiResp

/-- One upstream call, for the trace. -/
inductive ApiCall where
  | nameDob (q : String)
  | vkId (q : String)
  | request (q : String)
deriving DecidableEq, Repr

/-- The filter applied to the regex captures of the marked-phone patterns:
keep digit reductions that start with seven nine and have exactly eleven
digits, without duplicates. -/
def filterMarked (caps : List String) : List String :=
  caps.foldl (fun acc m =>
    let digits := digitsOf m
    if startsWithB digits "79" && digits.length = 11 && !(acc.contains digits)
    then acc ++ [digits] else acc) []

/-- The result dictionary of the search, one optional field per key. -/
structure SearchOutcome where
  phones : Option (List String)
  primaryPhone : Option String
  method : Option String
  confidence : Option ℚ
  source : Option String
  error : Option String

/-- A successful return site of the orchestrator. -/
def mkOutcome (phones : List String) (method : String) (conf : ℚ) (src : String) :
    SearchOutcome :=
  ⟨some phones, phones.head?, some method, some conf, some src, none⟩

/-- The terminal no-results dictionary. -/
def noResultsOutcome : SearchOutcome :=
  ⟨some [], none, some "no_results", some 0, none,
    some "Не удалось найти телефонные номера"⟩

/-- The dictionary returned by the exception handler when the name
marked_patterns is read before the stage-one marker block assigned it. -/
def nameErrorOutcome : SearchOutcome :=
  ⟨none, none, none, none, none,
    some "Ошибка при выполнении поиска: name 'marked_patterns' is not defined"⟩

/-- The full outcome of a model run: the returned dictionary, the trace of
upstream calls, and the final value of the emails variable. -/
structure OrchResult where
  res : SearchOutcome
  calls : List ApiCall
  emailsMined : List String

/-- The marker check performed on fallback, VK and email responses.
pd records whether marked_patterns was defined by the stage-one block; when
the marker is present and pd is false the source raises NameError, which
the outer handler converts into an error dictionary. -/
def markedCheck (resp : ApiResp) (pd : Bool) (method src : String) (conf : ℚ)
    (calls : List ApiCall) (emailsNow : List String) : Option OrchResult :=
  if resp.markerPresent then
    if pd = false then some ⟨nameErrorOutcome, calls, emailsNow⟩
    else
      let mp := filterMarked resp.markedCaptures
      if mp.isEmpty then none
      else some ⟨mkOutcome mp method conf src, calls, emailsNow⟩
  else none

/-- The stage-two email loop over the first five mined emails. -/
def emailLoop (api : ApiOracle) (surname firstname : String) (pd : Bool) :
    List String → List ApiCall × Option SearchOutcome
  | [] => ([], none)
  | email :: rest =>
    let resp := api.makeRequest email
    let c := ApiCall.request email
    if resp.markerPresent && !pd then ([c], some nameErrorOutcome)
    else if resp.markerPresent && pd && !(filterMarked resp.markedCaptures).isEmpty then
      ([c], some (mkOutcome (filterMarked resp.markedCaptures) "marked_phone_email" (95 / 100)
        ("email:" ++ email)))
    else
      let emailPhones := resp.minedPhones
      let validated := emailPhones.filter (fun p => startsWithB p "79" && p.length = 11)
      if !emailPhones.isEmpty && !validated.isEmpty then
        let conf : ℚ :=
          if strContainsB (pyLower email) (pyLower surname) ||
             strContainsB (pyLower email) (pyLower firstname) then 95 / 100 else 85 / 100
        ([c], some (mkOutcome validated "email_search" conf ("email:" ++ email)))
      else
        let r := emailLoop api surname firstname pd rest
        (c :: r.1, r.2)

/-- The stage-two entry: run the email loop when emails were mined. -/
def emailStageWrap (api : ApiOracle) (surname firstname : String) (pd : Bool)
    (emails : List String) (calls : List ApiCall) : OrchResult :=
  if emails.isEmpty then ⟨noResultsOutcome, calls, emails⟩
  else
    let r := emailLoop api surname firstname pd (emails.take 5)
    match r.2 with
    | some out => ⟨out, calls ++ r.1, emails⟩
    | none => ⟨noResultsOutcome, calls ++ r.1, emails⟩

/-- The VK-id stage, entered when no email was mined but a VK id was. -/
def vkStage (api : ApiOracle) (surname firstname : String) (pd : Bool)
    (emails vkIds : List String) (calls : List ApiCall) : OrchResult :=
  if emails.isEmpty && !vkIds.isEmpty then
    let vkid := vkIds.headD ""
    let resp := api.searchVkId vkid
    let calls1 := calls ++ [ApiCall.vkId vkid]
    match markedCheck resp pd "marked_phone_vk_id" ("vk_id:" ++ vkid) (9 / 10) calls1 emails with
    | some out => out
    | none =>
      if !resp.minedPhones.isEmpty then
        ⟨mkOutcome resp.minedPhones "vk_id_search" (3 / 4) ("vk_id:" ++ vkid), calls1, emails⟩
      else
        let emails1 := emails ++ resp.minedEmails.filter (fun e => !emails.contains e)
        emailStageWrap api surname firstname pd emails1 calls1
  else emailStageWrap api surname firstname pd emails calls

/-- The second fallback query (first name plus birthdate). -/
def altQuery2Stage (api : ApiOracle) (surname firstname birth_date : String) (pd : Bool)
    (emails vkIds : List String) (calls : List ApiCall) : OrchResult :=
  if firstname ≠ "" then
    let q2 := firstname ++ " " ++ birth_date
    let resp := api.searchByNameDob q2
    let calls1 := calls ++ [ApiCall.nameDob q2]
    match markedCheck resp pd "marked_phone_alt2" "alt_query2_marked" (92 / 100) calls1 emails with
    | some out => out
    | none =>
      if !resp.minedPhones.isEmpty then
        ⟨mkOutcome resp.minedPhones "alternative_query2" (7 / 10) "alternative_query2",
          calls1, emails⟩
      else
        let emails1 := emails ++ resp.minedEmails.filter (fun e => !emails.contains e)
        let vkIds1 := vkIds ++ resp.minedVkIds.filter (fun v => !vkIds.contains v)
        vkStage api surname firstname pd emails1 vkIds1 calls1
  else vkStage api surname firstname pd emails vkIds calls

/-- The fallback block entered when stage one found neither phones nor
emails: first surname plus birthdate, then first name plus birthdate. -/
def altQuery1Stage (api : ApiOracle) (surname firstname birth_date : String) (pd : Bool)
    (emails vkIds stage1Phones : List String) (calls : List ApiCall) : OrchResult :=
  if emails.isEmpty && stage1Phones.isEmpty then
    let q1 := surname ++ " " ++ birth_date
    let resp := api.searchByNameDob q1
    let calls1 := calls ++ [ApiCall.nameDob q1]
    match markedCheck resp pd "marked_phone_alt1" "alt_query1_marked" (95 / 100) calls1 emails with
    | some out => out
    | none =>
      if !resp.minedPhones.isEmpty then
        ⟨mkOutcome resp.minedPhones "alternative_query1" (8 / 10) "alternative_query1",
          calls1, emails⟩
      else
        let emails1 := emails ++ resp.minedEmails.filter (fun e => !emails.contains e)
        let vkIds1 := vkIds ++ resp.minedVkIds.filter (fun v => !vkIds.contains v)
        if emails1.isEmpty && resp.minedPhones.isEmpty then
          altQuery2Stage api surname firstname birth_date pd emails1 vkIds1 calls1
        else vkStage api surname firstname pd emails1 vkIds1 calls1
  else vkStage api surname firstname pd emails vkIds calls

/-- Embedding of search_phone_by_name_and_birth_date. -/
def searchPhoneModel (api : ApiOracle) (name birth_date : String) : OrchResult :=
  let nameParts := pySplitWs name
  let surname := nameParts.headD ""
  let firstname := (nameParts.drop 1).headD ""
  let fullQuery := name ++ " " ++ birth_date
  let resp := api.searchByNameDob fullQuery
  let calls := [ApiCall.nameDob fullQuery]
  let pd := resp.markerPresent
  if resp.markerPresent && !(filterMarked resp.markedCaptures).isEmpty then
    ⟨mkOutcome (filterMarked resp.markedCaptures) "marked_phone_first_stage" (98 / 100)
      "first_stage_marked", calls, []⟩
  else if !resp.minedPhones.isEmpty then
    ⟨mkOutcome resp.minedPhones "direct_extract" (9 / 10) "first_request", calls, []⟩
  else
    altQuery1Stage api surname firstname birth_date pd resp.minedEmails resp.minedVkIds
      resp.minedPhones calls


/-- The queries of the makeRequest calls of a trace. -/
def requestQueries (calls : List ApiCall) : List String :=
  calls.filterMap (fun c => match c with | .request q => some q | _ => none)

theorem requestQueries_append (a b : List ApiCall) :
    requestQueries (a ++ b) = requestQueries a ++ requestQueries b := by
  unfold requestQueries
  rw [List.filterMap_append]

theorem requestQueries_nameDob (q : String) : requestQueries [ApiCall.nameDob q] = [] := rfl

theorem requestQueries_vkId (q : String) : requestQueries [ApiCall.vkId q] = [] := rfl

theorem markedCheck_fields (resp : ApiResp) (pd : Bool) (m src : String) (conf : ℚ)
    (calls : List ApiCall) (em : List String) (out : OrchResult)
    (h : markedCheck resp pd m src conf calls em = some out) :
    out.calls = calls ∧ out.emailsMined = em := by
  unfold markedCheck at h
  split at h
  · split at h
    · cases h
      exact ⟨rfl, rfl⟩
    · simp only [] at h
      split at h
      · cases h
      · cases h
        exact ⟨rfl, rfl⟩
  · cases h

theorem emailLoop_req (api : ApiOracle) (s f : String) (pd : Bool) :
    ∀ l : List String, ∃ k, requestQueries (emailLoop api s f pd l).1 = l.take k := by
  intro l
  induction l with
  | nil => exact ⟨0, rfl⟩
  | cons e rest ih =>
    unfold emailLoop
    simp only []
    split
    · exact ⟨1, rfl⟩
    · split
      · exact ⟨1, rfl⟩
      · split
        · exact ⟨1, rfl⟩
        · obtain ⟨k, hk⟩ := ih
          refine ⟨k + 1, ?_⟩
          simp only [List.take_succ_cons]
          show requestQueries (ApiCall.request e :: (emailLoop api s f pd rest).1) = _
          have heq : requestQueries (ApiCall.request e :: (emailLoop api s f pd rest).1)
              = e :: requestQueries (emailLoop api s f pd rest).1 := rfl
          rw [heq, hk]

theorem emailStageWrap_req (api : ApiOracle) (s f : String) (pd : Bool)
    (emails : List String) (calls : List ApiCall) (h : requestQueries calls = []) :
    ∃ k, requestQueries (emailStageWrap api s f pd emails calls).calls
        = ((emailStageWrap api s f pd emails calls).emailsMined.take 5).take k := by
  unfold emailStageWrap
  split
  · exact ⟨0, by simp [h]⟩
  · simp only []
    obtain ⟨k, hk⟩ := emailLoop_req api s f pd (emails.take 5)
    split
    · refine ⟨k, ?_⟩
      simp only [requestQueries_append, h, List.nil_append]
      exact hk
    · refine ⟨k, ?_⟩
      simp only [requestQueries_append, h, List.nil_append]
      exact hk

theorem vkStage_req (api : ApiOracle) (s f : String) (pd : Bool)
    (emails vkIds : List String) (calls : List ApiCall) (h : requestQueries calls = []) :
    ∃ k, requestQueries (vkStage api s f pd emails vkIds calls).calls
        = ((vkStage api s f pd emails vkIds calls).emailsMined.take 5).take k := by
  unfold vkStage
  simp only []
  have hc1 : requestQueries (calls ++ [ApiCall.vkId (vkIds.headD "")]) = [] := by
    rw [requestQueries_append, h, requestQueries_vkId]
    rfl
  split
  · cases hm : markedCheck (api.searchVkId (vkIds.headD "")) pd "marked_phone_vk_id"
        ("vk_id:" ++ vkIds.headD "") (9 / 10)
        (calls ++ [ApiCall.vkId (vkIds.headD "")]) emails with
    | some out =>
      simp only [hm]
      obtain ⟨h1, h2⟩ := markedCheck_fields _ _ _ _ _ _ _ _ hm
      refine ⟨0, ?_⟩
      rw [h1, h2, List.take_zero]
      exact hc1
    | none =>
      simp only [hm]
      split
      · refine ⟨0, ?_⟩
        rw [List.take_zero]
        exact hc1
      · exact emailStageWrap_req api s f pd _ _ hc1
  · exact emailStageWrap_req api s f pd emails calls h


theorem altQuery2Stage_req (api : ApiOracle) (s f bd : String) (pd : Bool)
    (emails vkIds : List String) (calls : List ApiCall) (h : requestQueries calls = []) :
    ∃ k, requestQueries (altQuery2Stage api s f bd pd emails vkIds calls).calls
        = ((altQuery2Stage api s f bd pd emails vkIds calls).emailsMined.take 5).take k := by
  unfold altQuery2Stage
  simp only []
  have hc1 : requestQueries (calls ++ [ApiCall.nameDob (f ++ " " ++ bd)]) = [] := by
    rw [requestQueries_append, h, requestQueries_nameDob]
    rfl
  split
  · cases hm : markedCheck (api.searchByNameDob (f ++ " " ++ bd)) pd "marked_phone_alt2"
        "alt_query2_marked" (92 / 100) (calls ++ [ApiCall.nameDob (f ++ " " ++ bd)]) emails with
    | some out =>
      simp only [hm]
      obtain ⟨h1, h2⟩ := markedCheck_fields _ _ _ _ _ _ _ _ hm
      refine ⟨0, ?_⟩
      rw [h1, h2, List.take_zero]
      exact hc1
    | none =>
      simp only [hm]
      split
      · refine ⟨0, ?_⟩
        rw [List.take_zero]
        exact hc1
      · exact vkStage_req api s f pd _ _ _ hc1
  · exact vkStage_req api s f pd emails vkIds calls h

theorem altQuery1Stage_req (api : ApiOracle) (s f bd : String) (pd : Bool)
    (emails vkIds stage1Phones : List String) (calls : List ApiCall)
    (h : requestQueries calls = []) :
    ∃ k, requestQueries (altQuery1Stage api s f bd pd emails vkIds stage1Phones calls).calls
        = ((altQuery1Stage api s f bd pd emails vkIds stage1Phones calls).emailsMined.take 5).take k := by
  unfold altQuery1Stage
  simp only []
  have hc1 : requestQueries (calls ++ [ApiCall.nameDob (s ++ " " ++ bd)]) = [] := by
    rw [requestQueries_append, h, requestQueries_nameDob]
    rfl
  split
  · cases hm : markedCheck (api.searchByNameDob (s ++ " " ++ bd)) pd "marked_phone_alt1"
        "alt_query1_marked" (95 / 100) (calls ++ [ApiCall.nameDob (s ++ " " ++ bd)]) emails with
    | some out =>
      simp only [hm]
      obtain ⟨h1, h2⟩ := markedCheck_fields _ _ _ _ _ _ _ _ hm
      refine ⟨0, ?_⟩
      rw [h1, h2, List.take_zero]
      exact hc1
    | none =>
      simp only [hm]
      split
      · refine ⟨0, ?_⟩
        rw [List.take_zero]
        exact hc1
      · split
        · exact altQuery2Stage_req api s f bd pd _ _ _ hc1
        · exact vkStage_req api s f pd _ _ _ hc1
  · exact vkStage_req api s f pd emails vkIds calls h

/-- Claim C10: the email-pivot stage queries the upstream API for at most
the first five mined email addresses, in their mined order: the sequence
of makeRequest queries of any run is a prefix of the first five entries of
the final mined-email list. -/
theorem claim_C10_email_limit (api : ApiOracle) (name birth_date : String) :
    ∃ k, requestQueries (searchPhoneModel api name birth_date).calls
        = ((searchPhoneModel api name birth_date).emailsMined.take 5).take k := by
  unfold searchPhoneModel
  simp only []
  split
  · exact ⟨0, rfl⟩
  · split
    · exact ⟨0, rfl⟩
    · exact altQuery1Stage_req api _ _ birth_date _ _ _ _ _ rfl


/-- A blank upstream response with no marker, phones, emails or ids. -/
def blankResp : ApiResp := ⟨false, [], [], [], []⟩

/-- The oracle of the C2 counterexample: the primary response carries the
pinned marker next to the valid phone 74951234567 (the regex capture), and
the recursive miner therefore also finds that phone. -/
def apiC2 : ApiOracle :=
  ⟨fun q => if q = "ivanov ivan 01.01.2000"
            then ⟨true, ["74951234567"], ["74951234567"], [], []⟩ else blankResp,
   fun _ => blankResp, fun _ => blankResp⟩

/-- Claim C2 counterexample: the marker literal is present next to a phone
whose digits match the eleven-digit leading-seven shape, yet the marker
stage does not fire (its filter requires a seven-nine prefix); the phone is
returned by the later direct-extraction stage instead, with the method tag
direct_extract rather than a marked-phone tag. -/
theorem claim_C2_counterexample :
    matchesPhone7 "74951234567" = true ∧
    (apiC2.searchByNameDob ("ivanov ivan" ++ " " ++ "01.01.2000")).markerPresent = true ∧
    (apiC2.searchByNameDob ("ivanov ivan" ++ " " ++ "01.01.2000")).markedCaptures
      = ["74951234567"] ∧
    (searchPhoneModel apiC2 "ivanov ivan" "01.01.2000").res.method = some "direct_extract" ∧
    (searchPhoneModel apiC2 "ivanov ivan" "01.01.2000").res.method
      ≠ some "marked_phone_first_stage" :=
  ⟨by decide, by decide, by decide, rfl, by decide⟩

/-- Claim C2 amended: when the primary response carries the marker and some
capture reduces to eleven digits starting with seven nine, the search
returns immediately after the single primary call, with the filtered
marked phones, the marked_phone_first_stage tag, and confidence 0.98,
which is at least 0.9. -/
theorem claim_C2_amended (api : ApiOracle) (name birth_date : String)
    (hm : (api.searchByNameDob (name ++ " " ++ birth_date)).markerPresent = true)
    (hc : filterMarked (api.searchByNameDob (name ++ " " ++ birth_date)).markedCaptures ≠ []) :
    (searchPhoneModel api name birth_date).res
      = mkOutcome (filterMarked (api.searchByNameDob (name ++ " " ++ birth_date)).markedCaptures)
          "marked_phone_first_stage" (98 / 100) "first_stage_marked" ∧
    (searchPhoneModel api name birth_date).calls
      = [ApiCall.nameDob (name ++ " " ++ birth_date)] ∧
    (9 / 10 : ℚ) ≤ 98 / 100 := by
  unfold searchPhoneModel
  simp only []
  rw [if_pos]
  · exact ⟨rfl, rfl, by norm_num⟩
  · rw [hm]
    simp only [Bool.true_and, Bool.not_eq_eq_eq_not, Bool.not_false]
    exact List.isEmpty_eq_false.mpr hc

/-- Witness for the amended C2 theorem at a concrete oracle. -/
theorem claim_C2_amended_witness :
    (searchPhoneModel
        ⟨fun _ => ⟨true, ["79991234567"], [], [], []⟩, fun _ => blankResp, fun _ => blankResp⟩
        "ivanov ivan" "01.01.2000").res
      = mkOutcome ["79991234567"] "marked_phone_first_stage" (98 / 100) "first_stage_marked" := by
  have h := claim_C2_amended
    ⟨fun _ => ⟨true, ["79991234567"], [], [], []⟩, fun _ => blankResp, fun _ => blankResp⟩
    "ivanov ivan" "01.01.2000" (by decide) (by decide)
  rw [h.1]
  rw [show filterMarked (ApiOracle.searchByNameDob
      ⟨fun _ => ⟨true, ["79991234567"], [], [], []⟩, fun _ => blankResp, fun _ => blankResp⟩
      ("ivanov ivan" ++ " " ++ "01.01.2000")).markedCaptures = ["79991234567"] from by decide]


/-- The oracle of the C6 failing input: every response is blank except the
first fallback response, whose string form contains the marker literal but
no extractable phone. -/
def apiC6 : ApiOracle :=
  ⟨fun q => if q = "ivanov 01.01.2000" then ⟨true, [], [], [], []⟩ else blankResp,
   fun _ => blankResp, fun _ => blankResp⟩

/-- Claim C6 failing input: no stage can extract a phone, yet the result is
the error dictionary of the exception handler (the source reads
marked_patterns, which was only assigned inside the stage-one marker
block, so a NameError is raised and caught), not the no-results
dictionary. -/
theorem claim_C6_code_bug :
    (∀ q, (apiC6.searchByNameDob q).minedPhones = [] ∧
      (apiC6.searchVkId q).minedPhones = [] ∧
      (apiC6.makeRequest q).minedPhones = [] ∧
      filterMarked (apiC6.searchByNameDob q).markedCaptures = []) ∧
    (apiC6.searchByNameDob ("ivanov ivan" ++ " " ++ "01.01.2000")).markerPresent = false ∧
    (apiC6.searchByNameDob ("ivanov" ++ " " ++ "01.01.2000")).markerPresent = true ∧
    (searchPhoneModel apiC6 "ivanov ivan" "01.01.2000").res.error
      = some "Ошибка при выполнении поиска: name 'marked_patterns' is not defined" ∧
    (searchPhoneModel apiC6 "ivanov ivan" "01.01.2000").res.method ≠ some "no_results" ∧
    (searchPhoneModel apiC6 "ivanov ivan" "01.01.2000").res.phones ≠ some [] := by
  refine ⟨?_, by decide, by decide, rfl, by decide, by decide⟩
  intro q
  refine ⟨?_, rfl, rfl, ?_⟩
  · show (if q = "ivanov 01.01.2000" then (⟨true, [], [], [], []⟩ : ApiResp)
        else blankResp).minedPhones = []
    split <;> rfl
  · show filterMarked (if q = "ivanov 01.01.2000" then (⟨true, [], [], [], []⟩ : ApiResp)
        else blankResp).markedCaptures = []
    split <;> rfl


/-- The oracle of the C4 counterexample: the primary query yields no phone
but yields one email; the email query yields a phone. -/
def apiC4 : ApiOracle :=
  ⟨fun q => if q = "ivanov ivan 01.01.2000" then ⟨false, [], [], ["a@b.c"], []⟩ else blankResp,
   fun _ => blankResp,
   fun q => if q = "a@b.c" then ⟨false, [], ["79000000001"], [], []⟩ else blankResp⟩

/-- Claim C4 counterexample: the primary query yields no phones, yet no
fallback query is issued, because the code only runs the fallbacks when
the primary yielded neither phones nor emails; the search jumps straight
to the email pivot. -/
theorem claim_C4_counterexample :
    (apiC4.searchByNameDob ("ivanov ivan" ++ " " ++ "01.01.2000")).minedPhones = [] ∧
    (searchPhoneModel apiC4 "ivanov ivan" "01.01.2000").calls
      = [ApiCall.nameDob "ivanov ivan 01.01.2000", ApiCall.request "a@b.c"] ∧
    ApiCall.nameDob ("ivanov" ++ " " ++ "01.01.2000")
      ∉ (searchPhoneModel apiC4 "ivanov ivan" "01.01.2000").calls ∧
    (searchPhoneModel apiC4 "ivanov ivan" "01.01.2000").res.method = some "email_search" :=
  ⟨by decide, by decide, by decide, rfl⟩

/-- Claim C4 amended: the fallback variants run only when the primary
query yields neither phones nor emails; the first fallback is surname plus
birthdate and its mined phones are returned with confidence 0.8, at most
0.85; the second fallback, first name plus birthdate, runs only when the
first fallback also yields neither phones nor emails and the first name is
non-empty, and its mined phones are returned with confidence 0.7, at most
0.8.  (Marker-pinned phones found in fallback responses instead return
with confidence 0.95 and 0.92.) -/
theorem claim_C4_amended :
    (∀ (api : ApiOracle) (name birth_date : String),
      (api.searchByNameDob (name ++ " " ++ birth_date)).markerPresent = false →
      (api.searchByNameDob (name ++ " " ++ birth_date)).minedPhones = [] →
      (api.searchByNameDob (name ++ " " ++ birth_date)).minedEmails = [] →
      (api.searchByNameDob ((pySplitWs name).headD "" ++ " " ++ birth_date)).markerPresent
        = false →
      (api.searchByNameDob ((pySplitWs name).headD "" ++ " " ++ birth_date)).minedPhones ≠ [] →
        (searchPhoneModel api name birth_date).calls
          = [ApiCall.nameDob (name ++ " " ++ birth_date),
             ApiCall.nameDob ((pySplitWs name).headD "" ++ " " ++ birth_date)] ∧
        (searchPhoneModel api name birth_date).res.method = some "alternative_query1" ∧
        (searchPhoneModel api name birth_date).res.confidence = some (8 / 10) ∧
        (8 / 10 : ℚ) ≤ 85 / 100) ∧
    (∀ (api : ApiOracle) (name birth_date : String),
      (api.searchByNameDob (name ++ " " ++ birth_date)).markerPresent = false →
      (api.searchByNameDob (name ++ " " ++ birth_date)).minedPhones = [] →
      (api.searchByNameDob (name ++ " " ++ birth_date)).minedEmails = [] →
      (api.searchByNameDob ((pySplitWs name).headD "" ++ " " ++ birth_date)).markerPresent
        = false →
      (api.searchByNameDob ((pySplitWs name).headD "" ++ " " ++ birth_date)).minedPhones = [] →
      (api.searchByNameDob ((pySplitWs name).headD "" ++ " " ++ birth_date)).minedEmails = [] →
      ((pySplitWs name).drop 1).headD "" ≠ "" →
      (api.searchByNameDob (((pySplitWs name).drop 1).headD "" ++ " " ++ birth_date)).markerPresent
        = false →
      (api.searchByNameDob (((pySplitWs name).drop 1).headD "" ++ " " ++ birth_date)).minedPhones
        ≠ [] →
        (searchPhoneModel api name birth_date).calls
          = [ApiCall.nameDob (name ++ " " ++ birth_date),
             ApiCall.nameDob ((pySplitWs name).headD "" ++ " " ++ birth_date),
             ApiCall.nameDob (((pySplitWs name).drop 1).headD "" ++ " " ++ birth_date)] ∧
        (searchPhoneModel api name birth_date).res.method = some "alternative_query2" ∧
        (searchPhoneModel api name birth_date).res.confidence = some (7 / 10) ∧
        (7 / 10 : ℚ) ≤ 8 / 10) := by
  constructor
  · intro api name birth_date h1 h2 h3 h4 h5
    have step1 : searchPhoneModel api name birth_date
        = altQuery1Stage api ((pySplitWs name).headD "") (((pySplitWs name).drop 1).headD "")
            birth_date false [] (api.searchByNameDob (name ++ " " ++ birth_date)).minedVkIds []
            [ApiCall.nameDob (name ++ " " ++ birth_date)] := by
      unfold searchPhoneModel
      simp [h1, h2, h3]
    rw [step1]
    unfold altQuery1Stage
    rw [if_pos (by simp)]
    simp only [markedCheck, h4, if_neg (Bool.false_ne_true)]
    rw [if_pos (by simpa using h5)]
    exact ⟨rfl, rfl, rfl, by norm_num⟩
  · intro api name birth_date h1 h2 h3 h4 h5 h6 h7 h8 h9
    have step1 : searchPhoneModel api name birth_date
        = altQuery1Stage api ((pySplitWs name).headD "") (((pySplitWs name).drop 1).headD "")
            birth_date false [] (api.searchByNameDob (name ++ " " ++ birth_date)).minedVkIds []
            [ApiCall.nameDob (name ++ " " ++ birth_date)] := by
      unfold searchPhoneModel
      simp [h1, h2, h3]
    rw [step1]
    unfold altQuery1Stage
    rw [if_pos (by simp)]
    simp only [markedCheck, h4, if_neg (Bool.false_ne_true)]
    rw [if_neg (by rw [h5]; simp)]
    simp only [h5, h6, List.filter_nil, List.nil_append, List.isEmpty_nil, Bool.true_and]
    rw [if_pos (by trivial)]
    unfold altQuery2Stage
    rw [if_pos h7]
    simp only [markedCheck, h8, if_neg (Bool.false_ne_true)]
    rw [if_pos (by simpa using h9)]
    exact ⟨rfl, rfl, rfl, by norm_num⟩


/-- Witness fixture: only the first fallback query yields a phone. -/
def apiC4w1 : ApiOracle :=
  ⟨fun q => if q = "ivanov 01.01.2000" then ⟨false, [], ["79000000002"], [], []⟩ else blankResp,
   fun _ => blankResp, fun _ => blankResp⟩

/-- Witness fixture: only the second fallback query yields a phone. -/
def apiC4w2 : ApiOracle :=
  ⟨fun q => if q = "ivan 01.01.2000" then ⟨false, [], ["79000000003"], [], []⟩ else blankResp,
   fun _ => blankResp, fun _ => blankResp⟩

/-- Witness for the amended C4 theorem at concrete oracles. -/
theorem claim_C4_amended_witness :
    ((searchPhoneModel apiC4w1 "ivanov ivan" "01.01.2000").res.method
        = some "alternative_query1" ∧
      (searchPhoneModel apiC4w1 "ivanov ivan" "01.01.2000").res.confidence = some (8 / 10)) ∧
    ((searchPhoneModel apiC4w2 "ivanov ivan" "01.01.2000").res.method
        = some "alternative_query2" ∧
      (searchPhoneModel apiC4w2 "ivanov ivan" "01.01.2000").res.confidence = some (7 / 10)) := by
  constructor
  · have h := claim_C4_amended.1 apiC4w1 "ivanov ivan" "01.01.2000"
      (by decide) (by decide) (by decide) (by decide) (by decide)
    exact ⟨h.2.1, h.2.2.1⟩
  · have h := claim_C4_amended.2 apiC4w2 "ivanov ivan" "01.01.2000"
      (by decide) (by decide) (by decide) (by decide) (by decide) (by decide) (by decide)
      (by decide) (by decide)
    exact ⟨h.2.1, h.2.2.1⟩



/-! ### The adaptive batch controller of process_vk_links
(src/file_processing.py lines 356-530) -/

/-- Fuel-based chunking helper; with fuel at least the length of the list
it chunks like the Python slicing loop for a positive size. -/
def chunkListAux (n : Nat) : Nat → List String → List (List String)
  | 0, _ => []
  | _, [] => []
  | fuel + 1, l => l.take n :: chunkListAux n fuel (l.drop n)

/-- Partition a list into chunks of size n (the Python slicing loop
for i in range(0, len, n)). -/
def chunkList (n : Nat) (l : List String) : List (List String) := chunkListAux n l.length l

/-- The transient-failure test of the controller, applied to the error
message: a lower-cased timeout marker, the literal 500, or the upstream
unavailable literal. -/
def isTransientError (msg : String) : Bool :=
  strContainsB (pyLower msg) "тайм-аут" || strContainsB msg "500" ||
    strContainsB msg "External server unavailable"

/-- The outcome of one upstream batch call: an error message, or the
per-identifier phone map extracted from the response. -/
inductive BatchOutcome where
  | error (msg : String)
  | success (phonesById : String → List String)

/-- The loop state of the controller. -/
structure BatchState where
  batches : List (List String)
  batchIndex : Nat
  consecutiveSuccess : Nat
  consecutiveFails : Nat
  currentBatchSize : Nat
  batchResults : List (String × List String)
  successCount : Nat
  failCount : Nat

/-- Set the entry of a key of the results dictionary (insert or replace,
keeping insertion order). -/
def setResult (m : List (String × List String)) (k : String) (v : List String) :
    List (String × List String) :=
  match m with
  | [] => [(k, v)]
  | (k2, w) :: rest => if k2 = k then (k2, v) :: rest else (k2, w) :: setResult rest k v

/-- One iteration of the controller loop on the current batch, given the
outcome of its upstream call. -/
def processBatchStep (o : BatchOutcome) (s : BatchState) : BatchState :=
  let batch := s.batches.getD s.batchIndex []
  match o with
  | .error msg =>
    if isTransientError msg then
      if batch.length > 3 ∧ s.consecutiveFails + 1 ≥ 2 then
        { s with
          batches := s.batches.take s.batchIndex ++
            chunkList (max 3 (batch.length / 2)) ((s.batches.drop s.batchIndex).flatten),
          consecutiveFails := s.consecutiveFails + 1,
          consecutiveSuccess := 0 }
      else
        { s with
          consecutiveFails := s.consecutiveFails + 1,
          consecutiveSuccess := 0,
          batchResults := batch.foldl (fun m id => setResult m id []) s.batchResults,
          failCount := s.failCount + batch.length,
          batchIndex := s.batchIndex + 1 }
    else
      { s with
        batchResults := batch.foldl (fun m id => setResult m id []) s.batchResults,
        failCount := s.failCount + batch.length,
        batchIndex := s.batchIndex + 1 }
  | .success phonesById =>
    let results1 := batch.foldl (fun m id => setResult m id (phonesById (pyStrip id)))
      s.batchResults
    let sCount := batch.foldl
      (fun c id => if phonesById (pyStrip id) ≠ [] then c + 1 else c) s.successCount
    let fCount := batch.foldl
      (fun c id => if phonesById (pyStrip id) ≠ [] then c else c + 1) s.failCount
    if s.consecutiveSuccess + 1 ≥ 3 ∧ s.currentBatchSize < 30 then
      if min 30 (s.currentBatchSize * 2) > s.currentBatchSize then
        if s.batchIndex + 1 < s.batches.length then
          { s with
            batches := s.batches.take (s.batchIndex + 1) ++
              chunkList (min 30 (s.currentBatchSize * 2))
                ((s.batches.drop (s.batchIndex + 1)).flatten),
            currentBatchSize := min 30 (s.currentBatchSize * 2),
            consecutiveSuccess := s.consecutiveSuccess + 1,
            consecutiveFails := 0,
            batchResults := results1, successCount := sCount, failCount := fCount,
            batchIndex := s.batchIndex + 1 }
        else
          { s with
            currentBatchSize := min 30 (s.currentBatchSize * 2),
            consecutiveSuccess := s.consecutiveSuccess + 1,
            consecutiveFails := 0,
            batchResults := results1, successCount := sCount, failCount := fCount,
            batchIndex := s.batchIndex + 1 }
      else
        { s with
          consecutiveSuccess := s.consecutiveSuccess + 1,
          consecutiveFails := 0,
          batchResults := results1, successCount := sCount, failCount := fCount,
          batchIndex := s.batchIndex + 1 }
    else
      { s with
        consecutiveSuccess := s.consecutiveSuccess + 1,
        consecutiveFails := 0,
        batchResults := results1, successCount := sCount, failCount := fCount,
        batchIndex := s.batchIndex + 1 }

/-- With enough fuel and a positive chunk size, flattening the chunks
recovers the original list. -/
theorem chunkListAux_flatten (n : Nat) (hn : 1 ≤ n) :
    ∀ (fuel : Nat) (l : List String), l.length ≤ fuel →
      (chunkListAux n fuel l).flatten = l := by
  intro fuel
  induction fuel with
  | zero =>
    intro l hl
    have : l = [] := List.eq_nil_of_length_eq_zero (Nat.le_zero.mp hl)
    subst this
    rfl
  | succ fuel ih =>
    intro l hl
    cases l with
    | nil => rfl
    | cons a t =>
      show ((a :: t).take n :: chunkListAux n fuel ((a :: t).drop n)).flatten = a :: t
      rw [List.flatten_cons, ih ((a :: t).drop n) ?_, List.take_append_drop]
      rw [List.length_drop]
      simp only [List.length_cons] at hl ⊢
      omega

/-- Flattening a chunked list recovers the original list. -/
theorem chunkList_flatten (n : Nat) (hn : 1 ≤ n) (l : List String) :
    (chunkList n l).flatten = l :=
  chunkListAux_flatten n hn l.length l le_rfl

/-- Every chunk produced by the chunking helper has length at most the
chunk size. -/
theorem chunkListAux_mem_length (n : Nat) :
    ∀ (fuel : Nat) (l : List String), ∀ b ∈ chunkListAux n fuel l, b.length ≤ n := by
  intro fuel
  induction fuel with
  | zero =>
    intro l b hb
    simp [chunkListAux] at hb
  | succ fuel ih =>
    intro l b hb
    cases l with
    | nil => simp [chunkListAux] at hb
    | cons a t =>
      rcases List.mem_cons.mp hb with h | h
      · subst h
        exact List.length_take_le n (a :: t)
      · exact ih ((a :: t).drop n) b h

/-- Every chunk has length at most the chunk size. -/
theorem chunkList_mem_length (n : Nat) (l : List String) :
    ∀ b ∈ chunkList n l, b.length ≤ n :=
  chunkListAux_mem_length n l.length l

/-- Concrete state for the shrink counterexample: one pending batch of
four identifiers, one transient failure already recorded. -/
def batchSt4 : BatchState :=
  ⟨[["a", "b", "c", "d"]], 0, 0, 1, 4, [], 0, 0⟩

/-- Concrete state for the growth counterexample: batch size already at
the ceiling 30, two consecutive successes recorded, work remaining. -/
def batchSt30 : BatchState :=
  ⟨[["p", "q", "r"], ["x", "y", "z"], ["u", "v", "w"]], 0, 2, 0, 30, [], 0, 0⟩

/-- C7 counterexample. The claim says the re-partition after two
consecutive transient failures uses a size that is at most half the
previous batch size; on a batch of four identifiers the controller
re-partitions at size max 3 2 = 3, which exceeds 4 / 2, leaving a
chunk of three. The claim also says that after three consecutive
successes the remaining work is re-partitioned at the new size
min 30 (2 times the current size); when the current size is already 30
the controller skips the growth block entirely and the remaining
batches stay as they were, not as a re-partition at size 30 would
leave them. -/
theorem claim_C7_counterexample :
    isTransientError "HTTP 500" = true ∧
    (processBatchStep (.error "HTTP 500") batchSt4).batches = [["a", "b", "c"], ["d"]] ∧
    ¬ (∀ b ∈ (processBatchStep (.error "HTTP 500") batchSt4).batches, b.length ≤ 4 / 2) ∧
    batchSt30.consecutiveSuccess + 1 ≥ 3 ∧
    (processBatchStep (.success fun _ => ["79990000000"]) batchSt30).batches =
      batchSt30.batches ∧
    (processBatchStep (.success fun _ => ["79990000000"]) batchSt30).batches ≠
      batchSt30.batches.take 1 ++
        chunkList (min 30 (batchSt30.currentBatchSize * 2))
          ((batchSt30.batches.drop 1).flatten) := by
  decide

/-- C7 amended. After a transient upstream failure that makes two
consecutive failures on a batch of more than three identifiers, the
controller re-partitions everything from the current batch onward into
chunks of size max 3 (n / 2) where n is the current batch length,
without advancing the batch index; that size is at least 3, it is at
most n / 2 only when n is at least 6, every new chunk respects the
size bound, and no identifier is lost or duplicated. After a success
that makes three consecutive successes while the batch size is below
30, the size becomes min 30 (2 times the current size), and if work
remains beyond the current batch it is re-partitioned at the new
size. -/
theorem claim_C7_amended :
    (∀ (s : BatchState) (msg : String),
      isTransientError msg = true →
      (s.batches.getD s.batchIndex []).length > 3 →
      s.consecutiveFails + 1 ≥ 2 →
      (processBatchStep (.error msg) s).batches =
        s.batches.take s.batchIndex ++
          chunkList (max 3 ((s.batches.getD s.batchIndex []).length / 2))
            ((s.batches.drop s.batchIndex).flatten) ∧
      (processBatchStep (.error msg) s).batchIndex = s.batchIndex ∧
      3 ≤ max 3 ((s.batches.getD s.batchIndex []).length / 2) ∧
      (6 ≤ (s.batches.getD s.batchIndex []).length →
        max 3 ((s.batches.getD s.batchIndex []).length / 2) ≤
          (s.batches.getD s.batchIndex []).length / 2) ∧
      (∀ b ∈ (processBatchStep (.error msg) s).batches.drop s.batchIndex,
        b.length ≤ max 3 ((s.batches.getD s.batchIndex []).length / 2)) ∧
      ((processBatchStep (.error msg) s).batches.drop s.batchIndex).flatten =
        (s.batches.drop s.batchIndex).flatten) ∧
    (∀ (f : String → List String) (s : BatchState),
      s.consecutiveSuccess + 1 ≥ 3 →
      s.currentBatchSize < 30 →
      1 ≤ s.currentBatchSize →
      (processBatchStep (.success f) s).currentBatchSize =
        min 30 (s.currentBatchSize * 2) ∧
      (s.batchIndex + 1 < s.batches.length →
        (processBatchStep (.success f) s).batches =
          s.batches.take (s.batchIndex + 1) ++
            chunkList (min 30 (s.currentBatchSize * 2))
              ((s.batches.drop (s.batchIndex + 1)).flatten))) := by
  constructor
  · intro s msg h1 h2 h3
    have hstep : processBatchStep (.error msg) s =
        { s with
          batches := s.batches.take s.batchIndex ++
            chunkList (max 3 ((s.batches.getD s.batchIndex []).length / 2))
              ((s.batches.drop s.batchIndex).flatten),
          consecutiveFails := s.consecutiveFails + 1,
          consecutiveSuccess := 0 } := by
      unfold processBatchStep
      simp only []
      rw [h1, if_pos rfl, if_pos ⟨h2, h3⟩]
    have hlen : s.batchIndex ≤ s.batches.length := by
      by_contra hc
      push_neg at hc
      have : s.batches.getD s.batchIndex [] = [] :=
        List.getD_eq_default s.batches [] (le_of_lt hc)
      rw [this] at h2
      exact absurd h2 (by decide)
    have hdrop : ({ s with
          batches := s.batches.take s.batchIndex ++
            chunkList (max 3 ((s.batches.getD s.batchIndex []).length / 2))
              ((s.batches.drop s.batchIndex).flatten),
          consecutiveFails := s.consecutiveFails + 1,
          consecutiveSuccess := 0 } : BatchState).batches.drop s.batchIndex =
        chunkList (max 3 ((s.batches.getD s.batchIndex []).length / 2))
          ((s.batches.drop s.batchIndex).flatten) := by
      show (s.batches.take s.batchIndex ++ _).drop s.batchIndex = _
      rw [List.drop_append_of_le_length (by rw [List.length_take]; omega)]
      rw [List.drop_eq_nil_iff.mpr (by rw [List.length_take]; omega), List.nil_append]
    refine ⟨by rw [hstep], by rw [hstep], le_max_left 3 _, ?_, ?_, ?_⟩
    · intro h6
      exact max_le (by omega) le_rfl
    · intro b hb
      rw [hstep, hdrop] at hb
      exact chunkList_mem_length _ _ b hb
    · rw [hstep, hdrop]
      exact chunkList_flatten _ (by omega) _
  · intro f s h1 h2 h3
    have hgt : min 30 (s.currentBatchSize * 2) > s.currentBatchSize :=
      lt_min h2 (by omega)
    constructor
    · unfold processBatchStep
      simp only []
      rw [if_pos ⟨h1, h2⟩, if_pos hgt]
      split <;> rfl
    · intro hidx
      unfold processBatchStep
      simp only []
      rw [if_pos ⟨h1, h2⟩, if_pos hgt, if_pos hidx]

/-- Concrete state for the amended witness, shrink side: one batch of
five identifiers with one transient failure recorded. -/
def batchSt5 : BatchState :=
  ⟨[["a", "b", "c", "d", "e"]], 0, 0, 1, 5, [], 0, 0⟩

/-- Concrete state for the amended witness, growth side: three batches,
two consecutive successes recorded, current size 2. -/
def batchStG : BatchState :=
  ⟨[["a", "b"], ["c", "d"], ["e"]], 0, 2, 0, 2, [], 0, 0⟩

/-- Witness for C7 amended at concrete states. -/
theorem claim_C7_amended_witness :
    ((processBatchStep (.error "HTTP тайм-аут") batchSt5).batches =
      batchSt5.batches.take batchSt5.batchIndex ++
        chunkList (max 3 ((batchSt5.batches.getD batchSt5.batchIndex []).length / 2))
          ((batchSt5.batches.drop batchSt5.batchIndex).flatten)) ∧
    (processBatchStep (.success fun _ => ["79991112233"]) batchStG).currentBatchSize =
      min 30 (batchStG.currentBatchSize * 2) :=
  ⟨(claim_C7_amended.1 batchSt5 "HTTP тайм-аут" (by decide) (by decide) (by decide)).1,
   (claim_C7_amended.2 (fun _ => ["79991112233"]) batchStG (by decide) (by decide)
     (by decide)).1⟩

/-! ### Final reassembly of process_vk_links
(src/file_processing.py lines 55-71, 362-374 and 524-530) -/

/-- Scan for the leftmost occurrence of the letters i and d followed by
a non-empty digit run (the regex id followed by one or more digits),
returning the digit run. -/
def searchIdNum : List Char → Option (List Char)
  | [] => none
  | c :: rest =>
    if c = 'i' then
      match rest with
      | 'd' :: rest2 =>
        let ds := rest2.takeWhile pyIsDigit
        if ds.isEmpty then searchIdNum rest else some ds
      | _ => searchIdNum rest
    else searchIdNum rest

/-- The extract_vk_id helper of file_processing: empty link gives none,
otherwise the first captured digit group of the id regex. -/
def extract_vk_id_fp (link : String) : Option String :=
  if link = "" then none
  else (searchIdNum link.toList).map List.asString

/-- One step of the first phase of process_vk_links: a link with an
extractable id contributes the id, a link without one is appended to
the results at once with an empty phone list. -/
def phase1Step (st : List String × List (String × List String)) (link : String) :
    List String × List (String × List String) :=
  match extract_vk_id_fp link with
  | some id => (st.1 ++ [id], st.2)
  | none => (st.1, st.2 ++ [(link, [])])

/-- First phase of process_vk_links: split the input links into the
extracted ids and the early results for inextractable links. -/
def phase1 (items : List String) : List String × List (String × List String) :=
  items.foldl phase1Step ([], [])

/-- Dictionary lookup in the accumulated batch results. -/
def lookupAssoc (m : List (String × List String)) (k : String) : Option (List String) :=
  (m.find? (fun q => q.1 = k)).map (fun q => q.2)

/-- One step of the final reassembly loop: a link whose id is present
in the batch results is appended with its phones; otherwise the link
is appended with an empty list unless that pair is already present. -/
def assembleStep (batchResults : List (String × List String))
    (acc : List (String × List String)) (link : String) : List (String × List String) :=
  match extract_vk_id_fp link with
  | some id =>
    match lookupAssoc batchResults id with
    | some phones => acc ++ [(link, phones)]
    | none => if (link, ([] : List String)) ∈ acc then acc else acc ++ [(link, [])]
  | none => if (link, ([] : List String)) ∈ acc then acc else acc ++ [(link, [])]

/-- The final reassembly loop of process_vk_links, started from the
early results of the first phase. -/
def assembleResults (items : List String) (batchResults : List (String × List String))
    (init : List (String × List String)) : List (String × List String) :=
  items.foldl (assembleStep batchResults) init

/-- The result list of the VK-link branch of process_vk_links, given
the batch results dictionary accumulated by the controller loop: if no
id was extractable the early results are returned as they stand,
otherwise the reassembly loop runs over the original items. -/
def process_vk_links_results (items : List String)
    (batchResults : List (String × List String)) : List (String × List String) :=
  let p := phase1 items
  if p.1.isEmpty then p.2 else assembleResults items batchResults p.2

/-- A link is resolvable when its id is extractable and present in the
batch results dictionary. -/
def linkResolvable (batchResults : List (String × List String)) (l : String) : Bool :=
  match extract_vk_id_fp l with
  | some id => (lookupAssoc batchResults id).isSome
  | none => false

/-- When every item has an extractable id, the first phase emits no
early result and collects one id per item. -/
theorem phase1_all_some :
    ∀ (items : List String), (∀ l ∈ items, (extract_vk_id_fp l).isSome = true) →
      ∀ st : List String × List (String × List String),
        (items.foldl phase1Step st).2 = st.2 ∧
        (items.foldl phase1Step st).1.length = st.1.length + items.length := by
  intro items
  induction items with
  | nil =>
    intro h st
    simp
  | cons a t ih =>
    intro h st
    obtain ⟨id, hid⟩ := Option.isSome_iff_exists.mp (h a (List.mem_cons_self a t))
    have h2 := ih (fun l hl => h l (List.mem_cons_of_mem a hl))
    have hstep : phase1Step st a = (st.1 ++ [id], st.2) := by
      unfold phase1Step
      rw [hid]
    rw [List.foldl_cons, hstep]
    refine ⟨(h2 _).1, ?_⟩
    rw [(h2 _).2]
    simp only [List.length_append, List.length_cons, List.length_nil]
    omega

/-- When every item is resolvable, the reassembly loop appends exactly
one pair per item, in the order of the items. -/
theorem assemble_all_resolvable (br : List (String × List String)) :
    ∀ (items : List String), (∀ l ∈ items, linkResolvable br l = true) →
      ∀ acc : List (String × List String),
        (items.foldl (assembleStep br) acc).map Prod.fst = acc.map Prod.fst ++ items := by
  intro items
  induction items with
  | nil =>
    intro h acc
    simp
  | cons a t ih =>
    intro h acc
    have ha := h a (List.mem_cons_self a t)
    unfold linkResolvable at ha
    have hstep : ∃ ph, assembleStep br acc a = acc ++ [(a, ph)] := by
      cases he : extract_vk_id_fp a with
      | none =>
        rw [he] at ha
        simp at ha
      | some id =>
        rw [he] at ha
        simp only [] at ha
        obtain ⟨ph, hph⟩ := Option.isSome_iff_exists.mp ha
        refine ⟨ph, ?_⟩
        unfold assembleStep
        rw [he]
        simp only []
        rw [hph]
    obtain ⟨ph, hstep⟩ := hstep
    rw [List.foldl_cons, hstep, ih (fun l hl => h l (List.mem_cons_of_mem a hl))]
    simp

/-- C8 counterexample. With one extractable link after one
inextractable link, the first phase appends the inextractable link to
the results before any batch work, so the final list enumerates the
inextractable links first: the output order is not the input order. -/
theorem claim_C8_counterexample :
    (process_vk_links_results ["vk.com/id1", "nolink"]
        [("1", ["79111111111"])]).map Prod.fst = ["nolink", "vk.com/id1"] ∧
    (["nolink", "vk.com/id1"] : List String) ≠ ["vk.com/id1", "nolink"] := by
  decide

/-- C8 amended. When every input link has an extractable id that is
present in the batch results dictionary, the final result list
enumerates the links in exactly the original input order. -/
theorem claim_C8_amended (items : List String) (br : List (String × List String))
    (h : ∀ l ∈ items, linkResolvable br l = true) :
    (process_vk_links_results items br).map Prod.fst = items := by
  cases items with
  | nil => rfl
  | cons a t =>
    have hsome : ∀ l ∈ a :: t, (extract_vk_id_fp l).isSome = true := by
      intro l hl
      have := h l hl
      unfold linkResolvable at this
      cases he : extract_vk_id_fp l with
      | none =>
        rw [he] at this
        simp at this
      | some id => rfl
    have hp := phase1_all_some (a :: t) hsome ([], [])
    have hne : (phase1 (a :: t)).1.isEmpty = false := by
      rw [List.isEmpty_eq_false_iff_exists_mem]
      have hlen := hp.2
      simp only [List.length_nil, Nat.zero_add, List.length_cons] at hlen
      cases hq : (phase1 (a :: t)).1 with
      | nil =>
        rw [show phase1 (a :: t) = (a :: t).foldl phase1Step ([], []) from rfl] at hq
        rw [hq] at hlen
        simp at hlen
      | cons x xs => exact ⟨x, by simp [hq]⟩
    unfold process_vk_links_results
    simp only []
    rw [if_neg (by rw [hne]; exact Bool.false_ne_true)]
    have hinit : (phase1 (a :: t)).2 = [] := hp.1
    unfold assembleResults
    rw [hinit, assemble_all_resolvable br (a :: t) h []]
    rfl

/-- Witness for C8 amended on two resolvable links. -/
theorem claim_C8_amended_witness :
    (process_vk_links_results ["vk.com/id5", "https://vk.com/id7"]
        [("5", ["79998887766"]), ("7", [])]).map Prod.fst =
      ["vk.com/id5", "https://vk.com/id7"] :=
  claim_C8_amended ["vk.com/id5", "https://vk.com/id7"]
    [("5", ["79998887766"]), ("7", [])] (by decide)

end Bot
